import Mathlib

/-!
# glslcl: a shallow embedding of `src/main.c`

The program compile-tests GLSL shaders against the graphics driver.  The
embedding keeps the control flow of `main.c` and makes its surroundings
explicit:

* C strings are lists of characters without the terminating zero (`CStr`);
* the three globals `logType`, `typeOverride`, `filterFilenames` are the
  fields of `Config`, passed explicitly;
* the file system, the driver, `isatty` and standard input are the fields of
  `World`;
* everything the program does to the outside is recorded as a list of events
  (`Ev`): context calls, `fopen`, driver compile calls and `printf`s.

Assumptions of the model: `malloc`, `realloc` and `fread` succeed, a file does
not change during the run, the `int` variables `sz`, `length`, `maxSize` stay
below `2^31` (they are natural numbers here), and `assert` is compiled in.
Bytes are modelled by `Char`.
-/

namespace Glslcl

/-- A C string, without its terminating zero byte. -/
abbrev CStr := List Char

/-- The zero byte. -/
def NUL : Char := Char.ofNat 0

/-! ## libc helpers -/

/-- The libc `strrchr(s, c)` for a non-zero `c`: the suffix of `s` starting at the last
occurrence of `c`, `none` (NULL) when `c` does not occur. -/
def strrchr : CStr → Char → Option CStr
  | [], _ => none
  | x :: xs, c =>
    match strrchr xs c with
    | some t => some t
    | none => if x = c then some (x :: xs) else none

/-- The libc `strcmp(a, b)`: zero, negative or positive. -/
def strcmp : CStr → CStr → Int
  | [], [] => 0
  | [], _ :: _ => -1
  | _ :: _, [] => 1
  | a :: as, b :: bs =>
    if a = b then strcmp as bs else if a.toNat < b.toNat then -1 else 1

/-- The C string a buffer of bytes denotes: the bytes before the first zero. -/
def cstrOf (buf : List Char) : CStr := buf.takeWhile (fun c => c != NUL)

/-- The libc `strlen` of a buffer. -/
def strlen (buf : List Char) : Nat := (cstrOf buf).length

/-! ## Constants -/

/-- Modelled from the spec: `glad.h` is not among the sources; the vertex stage
tag, with the value the OpenGL headers give `GL_VERTEX_SHADER`. -/
def GL_VERTEX_SHADER : Int := 0x8B31

/-- Modelled from the spec: `glad.h` is not among the sources; the fragment stage
tag, with the value the OpenGL headers give `GL_FRAGMENT_SHADER`. -/
def GL_FRAGMENT_SHADER : Int := 0x8B30

/-- Modelled from the spec: `glad.h` is not among the sources; the compile status
the driver reports for a rejected shader (`GL_FALSE`). -/
def GL_FALSE : Int := 0

/-- The flag `-q`. -/
def ARG_QUIET : CStr := ['-', 'q']

/-- The flag `-v`. -/
def ARG_VERBOSE : CStr := ['-', 'v']

/-- The flag `-vert`. -/
def ARG_ALL_VERTS : CStr := ['-', 'v', 'e', 'r', 't']

/-- The flag `-frag`. -/
def ARG_ALL_FRAGS : CStr := ['-', 'f', 'r', 'a', 'g']

/-- The flag `-f`. -/
def ARG_FILTER : CStr := ['-', 'f']

/-- The flag `-h`. -/
def ARG_HELP : CStr := ['-', 'h']

/-- The literal `".vert"` of `getType`. -/
def DOT_VERT : CStr := ['.', 'v', 'e', 'r', 't']

/-- The literal `".frag"` of `getType`. -/
def DOT_FRAG : CStr := ['.', 'f', 'r', 'a', 'g']

/-- The size of the first allocation and of every increment of the stdin buffer. -/
def INITIAL_SIZE : Nat := 1024

/-! ## Configuration (the globals) -/

/-- The C enum `LogType`. -/
inductive LogType where
  | LT_QUIET
  | LT_DEFAULT
  | LT_VERBOSE
  deriving DecidableEq, Repr

/-- The integer value of an enumerator. -/
def LogType.val : LogType → Nat
  | .LT_QUIET => 0
  | .LT_DEFAULT => 1
  | .LT_VERBOSE => 2

/-- The globals `logType`, `typeOverride` (`-1` when unset) and
`filterFilenames`. -/
structure Config where
  logType : LogType
  typeOverride : Int
  filterFilenames : Bool
  deriving DecidableEq, Repr

/-- The initial values of the globals. -/
def Config.init : Config :=
  { logType := .LT_DEFAULT, typeOverride := -1, filterFilenames := false }

/-! ## Output and events -/

/-- One `printf` of the program. -/
inductive Out where
  /-- The call `printf("%s", USAGE_STR)` -/
  | usage
  /-- The call `printf("%s", HELP_STR)` -/
  | help
  /-- The call `printf("TESTING: %s\n", filename)` -/
  | testing (filename : CStr)
  /-- The call `printf("COMPILING: %s\n", filename)`, with `stdin` for the stdin path -/
  | compiling (name : CStr)
  /-- The call `printf("Compiling using type 0x%X\n", type)` -/
  | usingType (type : Int)
  /-- The call `printf("Allocated for %d bytes, actual size: %d \n", maxSize, length)` -/
  | allocated (maxSize length : Nat)
  /-- The call `printf("ERROR: Could not determine shader type for file: %s, ...\n", filename)` -/
  | typeError (filename : CStr)
  /-- The call `printf("ERROR: Could not open file %s\n", filename)` -/
  | openError (filename : CStr)
  /-- The call `printf("%s,PASSED\n", name)` -/
  | passed (name : CStr)
  /-- The call `printf("%s,FAILED\n", name)` -/
  | failed (name : CStr)
  /-- The call `printf("\t%s", log)` -/
  | diag (log : Option CStr)
  deriving DecidableEq, Repr

/-- An externally visible action of the program. -/
inductive Ev where
  /-- The call `createContext()` -/
  | createContext
  /-- The call `destroyContext()` -/
  | destroyContext
  /-- The call `fopen(path, "r")` in `readFile` -/
  | fopen (path : CStr)
  /-- The calls `glCreateShader(type)`, `glShaderSource`, `glCompileShader` -/
  | compile (source : CStr) (type : Int)
  /-- A `printf` to standard output -/
  | print (o : Out)
  deriving DecidableEq, Repr

/-- What the driver answers to a compile call: the `GL_COMPILE_STATUS` and the
info log. -/
structure DriverReply where
  status : Int
  infoLog : CStr
  deriving DecidableEq, Repr

/-- The surroundings of one run.  `files path` is `none` when `fopen` fails and
the content of the file otherwise; `driver k source type` is the reply to the
compile call number `k` (counted from zero) of the run. -/
structure World where
  files : CStr → Option (List Char)
  driver : Nat → CStr → Int → DriverReply
  isatty : Bool
  stdin : List Char

/-- How the process ends: `exit`/`return` from `main` with a status, or the
`abort` of a failed `assert`. -/
inductive Outcome where
  | exit (code : Int)
  | abort
  deriving DecidableEq, Repr

/-- A run of the program: what it did and how it ended. -/
structure Run where
  trace : List Ev
  outcome : Outcome
  deriving DecidableEq, Repr

/-- The `printf`s of a trace, in order. -/
def stdout (tr : List Ev) : List Out :=
  tr.filterMap (fun e => match e with
    | .print o => some o
    | _ => none)

/-- The compile calls of a trace, in order: source and stage handed to the driver. -/
def compileCalls (tr : List Ev) : List (CStr × Int) :=
  tr.filterMap (fun e => match e with
    | .compile s t => some (s, t)
    | _ => none)

/-- The paths opened in a trace, in order. -/
def opened (tr : List Ev) : List CStr :=
  tr.filterMap (fun e => match e with
    | .fopen p => some p
    | _ => none)

/-! ## The functions of `main.c` -/

/-- The macro `LOG_DEBUG(x)`: `x` only when `logType == LT_VERBOSE`. -/
def LOG_DEBUG (cfg : Config) (o : Out) : List Ev :=
  if cfg.logType = .LT_VERBOSE then [.print o] else []

/-- The macro `LOG_INFO(x)`: `x` only when `logType > LT_QUIET`. -/
def LOG_INFO (cfg : Config) (o : Out) : List Ev :=
  if cfg.logType.val > LogType.LT_QUIET.val then [.print o] else []

/-- The macro `LOG_ERROR(x)`: always `x`. -/
def LOG_ERROR (_cfg : Config) (o : Out) : List Ev := [.print o]

/-- The test `p && strcmp(p, lit) == 0`. -/
def ptrIs (p : Option CStr) (lit : CStr) : Bool :=
  match p with
  | none => false
  | some t => strcmp t lit == 0

/-- Function `getType`: the stage inferred from the filename, `-1` if there is no match
and no override. -/
def getType (cfg : Config) (filename : CStr) : Int :=
  let dotPostfix := strrchr filename '.'
  if ptrIs dotPostfix DOT_VERT then GL_VERTEX_SHADER
  else if ptrIs dotPostfix DOT_FRAG then GL_FRAGMENT_SHADER
  else if cfg.typeOverride != -1 then cfg.typeOverride
  else -1

/-- Function `isArgument`: whether a token is an option rather than a filename. -/
def isArgument (arg : CStr) : Bool :=
  let minusPostfix := strrchr arg '-'
  let dotPostfix := strrchr arg '.'
  minusPostfix.isSome && !dotPostfix.isSome

/-- What `processFlag` does: return a code with the globals updated, or print
and `exit`. -/
inductive FlagResult where
  | ret (code : Int) (cfg : Config)
  | exit (out : List Out) (code : Int)
  deriving DecidableEq, Repr

/-- Function `processFlag`: updates the globals depending on the given argument. -/
def processFlag (cfg : Config) (arg : CStr) : FlagResult :=
  if strcmp arg ARG_QUIET == 0 then .ret 0 { cfg with logType := .LT_QUIET }
  else if strcmp arg ARG_VERBOSE == 0 then .ret 0 { cfg with logType := .LT_VERBOSE }
  else if strcmp arg ARG_ALL_VERTS == 0 then .ret 0 { cfg with typeOverride := GL_VERTEX_SHADER }
  else if strcmp arg ARG_ALL_FRAGS == 0 then .ret 0 { cfg with typeOverride := GL_FRAGMENT_SHADER }
  else if strcmp arg ARG_FILTER == 0 then .ret 0 { cfg with filterFilenames := true }
  else if strcmp arg ARG_HELP == 0 then .exit [.usage, .help] 1
  else .ret 1 cfg

/-- What `readFile` does: return NULL, fail its assertion, or return the buffer
of `sz + 1` bytes. -/
inductive ReadResult where
  | null
  | assertFail
  | ok (source : List Char)
  deriving DecidableEq, Repr

/-- Function `readFile`: the whole file followed by a zero byte. -/
def readFile (w : World) (path : CStr) : ReadResult :=
  match w.files path with
  | none => .null
  | some content =>
    let sz := content.length
    let source := content ++ [NUL]
    if sz = strlen source then .ok source else .assertFail

/-- The result of `compileShader`: its events, the return value and `*log`. -/
structure CompileResult where
  events : List Ev
  ret : Int
  log : Option CStr
  deriving DecidableEq, Repr

/-- Function `compileShader`, as compile call number `k` of the run. -/
def compileShader (cfg : Config) (w : World) (k : Nat) (source : CStr) (type : Int) :
    CompileResult :=
  let type := if cfg.typeOverride != -1 then cfg.typeOverride else type
  let dbg := LOG_DEBUG cfg (.usingType type)
  let reply := w.driver k source type
  if reply.status == GL_FALSE then
    { events := dbg ++ [.compile source type], ret := 1, log := some reply.infoLog }
  else
    { events := dbg ++ [.compile source type], ret := 0, log := none }

/-- How `processFile` ends: with a return value, or in the failed assertion of
`readFile`. -/
inductive FileEnd where
  | ret (code : Int)
  | abort
  deriving DecidableEq, Repr

/-- The result of `processFile`: its events, the number of compile calls made
so far, and how it ended. -/
structure FileResult where
  events : List Ev
  calls : Nat
  result : FileEnd
  deriving DecidableEq, Repr

/-- Function `processFile`, entered after `k` compile calls. -/
def processFile (cfg : Config) (w : World) (k : Nat) (filename : CStr) : FileResult :=
  let dbg := LOG_DEBUG cfg (.testing filename)
  let type := getType cfg filename
  if type == -1 && cfg.filterFilenames then
    { events := dbg, calls := k, result := .ret 0 }
  else if type == -1 then
    { events := dbg ++ LOG_ERROR cfg (.typeError filename), calls := k, result := .ret 1 }
  else
    match readFile w filename with
    | .null =>
      { events := dbg ++ [.fopen filename] ++ LOG_ERROR cfg (.openError filename),
        calls := k, result := .ret 1 }
    | .assertFail =>
      { events := dbg ++ [.fopen filename], calls := k, result := .abort }
    | .ok source =>
      let c := compileShader cfg w k (cstrOf source) type
      let pre := dbg ++ [.fopen filename] ++ LOG_DEBUG cfg (.compiling filename) ++ c.events
      if c.ret = 0 then
        { events := pre ++ LOG_INFO cfg (.passed filename), calls := k + 1, result := .ret 0 }
      else if c.ret = 1 then
        { events := pre ++ LOG_ERROR cfg (.failed filename) ++ [.print (.diag c.log)],
          calls := k + 1, result := .ret 2 }
      else
        { events := pre, calls := k + 1, result := .ret 0 }

/-! ### The stdin path -/

/-- The growable buffer of `processStdinInput`: the allocated cells (`none` for a
cell never written), the variables `maxSize` and `length`, and whether some
write fell outside the allocation. -/
structure Buffer where
  cells : List (Option Char)
  maxSize : Nat
  length : Nat
  oob : Bool
  deriving DecidableEq, Repr

/-- The call `malloc(INITIAL_SIZE)` with `maxSize = INITIAL_SIZE`, `length = 0`. -/
def Buffer.init : Buffer :=
  { cells := List.replicate INITIAL_SIZE none, maxSize := INITIAL_SIZE, length := 0,
    oob := false }

/-- The guarded `realloc(source, maxSize + extra); maxSize += extra;`, taken when
`length + 1 >= maxSize`. -/
def Buffer.grow (b : Buffer) (extra : Nat) : Buffer :=
  if b.length + 1 ≥ b.maxSize then
    { b with cells := b.cells ++ List.replicate extra none, maxSize := b.maxSize + extra }
  else b

/-- The store `source[length++] = c`. -/
def Buffer.push (b : Buffer) (c : Char) : Buffer :=
  { b with
    cells := b.cells.set b.length (some c)
    length := b.length + 1
    oob := b.oob || decide (b.cells.length ≤ b.length) }

/-- The read loop of `processStdinInput`: one iteration per byte until end of
input. -/
def readLoop : List Char → Buffer → Buffer
  | [], b => b
  | c :: rest, b => readLoop rest ((b.grow INITIAL_SIZE).push c)

/-- The buffer of `processStdinInput` after the loop and the terminating zero. -/
def readStdin (input : List Char) : Buffer :=
  ((readLoop input Buffer.init).grow 1).push NUL

/-- The C string the cells of a buffer denote: the bytes before the first zero
byte; reading also stops at a cell that was never written. -/
def cstrOfCells (cells : List (Option Char)) : CStr :=
  (cells.takeWhile (fun c => c.isSome && c != some NUL)).filterMap id

/-- How `processStdinInput` ends: it returns to `main`, or calls `exit`. -/
inductive StdinEnd where
  | returned
  | exited (code : Int)
  deriving DecidableEq, Repr

/-- The name `stdin` printed by the stdin path. -/
def STDIN_NAME : CStr := ['s', 't', 'd', 'i', 'n']

/-- Function `processStdinInput`, entered after `k` compile calls: its events
and how it ends. -/
def processStdinInput (cfg : Config) (w : World) (k : Nat) : List Ev × StdinEnd :=
  let b := readStdin w.stdin
  if b.length ≤ 1 then ([], .returned)
  else
    let dbg := LOG_DEBUG cfg (.allocated b.maxSize b.length) ++ LOG_DEBUG cfg (.compiling STDIN_NAME)
    let type := if cfg.typeOverride != -1 then cfg.typeOverride else GL_VERTEX_SHADER
    let c := compileShader cfg w k (cstrOfCells b.cells) type
    let pre := dbg ++ c.events
    if c.ret = 0 then
      (pre ++ LOG_INFO cfg (.passed STDIN_NAME) ++ [.destroyContext], .exited 0)
    else if c.ret = 1 then
      (pre ++ LOG_ERROR cfg (.failed STDIN_NAME) ++ [.print (.diag c.log), .destroyContext],
        .exited 1)
    else
      (pre ++ [.destroyContext], .exited 0)

/-! ### `main` -/

/-- How the first loop of `main` ends: with the globals set and the count
`numFilenames`, or in the `exit` of `processFlag`. -/
inductive ParseResult where
  | done (cfg : Config) (numFilenames : Nat)
  | exit (out : List Out) (code : Int)
  deriving DecidableEq, Repr

/-- The first loop of `main` over `argv[1..]`: flags go to `processFlag` (its
return value is dropped), other tokens are counted. -/
def parseArgs (cfg : Config) (numFilenames : Nat) : List CStr → ParseResult
  | [] => .done cfg numFilenames
  | a :: rest =>
    if isArgument a then
      match processFlag cfg a with
      | .ret _ cfg1 => parseArgs cfg1 numFilenames rest
      | .exit out code => .exit out code
    else parseArgs cfg (numFilenames + 1) rest

/-- How the second loop of `main` ends: it runs to its end with `retValue`, or
`main` returns from inside it, or the process aborts. -/
inductive LoopEnd where
  | done (retValue : Int)
  | ret (code : Int)
  | abort
  deriving DecidableEq, Repr

/-- The result of the second loop of `main`. -/
structure LoopResult where
  events : List Ev
  calls : Nat
  result : LoopEnd
  deriving DecidableEq, Repr

/-- The second loop of `main` over `argv[1..]`, entered after `k` compile calls
with the current `retValue`. -/
def fileLoop (cfg : Config) (w : World) : Nat → Int → List CStr → LoopResult
  | k, retValue, [] => { events := [], calls := k, result := .done retValue }
  | k, retValue, a :: rest =>
    if isArgument a then fileLoop cfg w k retValue rest
    else
      let r := processFile cfg w k a
      match r.result with
      | .abort => { events := r.events, calls := r.calls, result := .abort }
      | .ret result =>
        if result = 2 then
          let l := fileLoop cfg w r.calls 1 rest
          { l with events := r.events ++ l.events }
        else if result = 1 then
          { events := r.events ++ [.destroyContext], calls := r.calls, result := .ret 1 }
        else
          let l := fileLoop cfg w r.calls retValue rest
          { l with events := r.events ++ l.events }

/-- Function `main` on the arguments `argv[1..]`. -/
def main (w : World) (args : List CStr) : Run :=
  match parseArgs Config.init 0 args with
  | .exit out code => { trace := out.map Ev.print, outcome := .exit code }
  | .done cfg numFilenames =>
    let l := fileLoop cfg w 0 0 args
    match l.result with
    | .abort => { trace := .createContext :: l.events, outcome := .abort }
    | .ret code => { trace := .createContext :: l.events, outcome := .exit code }
    | .done retValue =>
      if !w.isatty then
        match processStdinInput cfg w l.calls with
        | (evs, .exited code) =>
          { trace := .createContext :: (l.events ++ evs), outcome := .exit code }
        | (evs, .returned) =>
          { trace := .createContext :: (l.events ++ evs ++ [.destroyContext]),
            outcome := .exit retValue }
      else if numFilenames < 1 then
        { trace := .createContext :: (l.events ++ [.print .usage]), outcome := .exit 1 }
      else
        { trace := .createContext :: (l.events ++ [.destroyContext]),
          outcome := .exit retValue }

/-! ## Rendering of the output -/

/-- The text of `USAGE_STR`. -/
def USAGE_STR : CStr :=
  ("Usage: \n\t" ++
   "[flag] [filename] [filename] [flag] [flag] [filename] ... \n\n" ++
   "Example: glslcl my_shader.vert -q\n\n" ++
   "Flags:\n" ++
   "\t-q:\tSets logging mode to quiet, only errors are shown (errors and info messages are shown by default)\n" ++
   "\t-v:\tSets logging mode to verbose, all errors, info and debugging messages are shown\n" ++
   "\t-vert:\tSets the shader type to vertex for all given files\n" ++
   "\t-frag:\tSets the shader type to fragment for all given files\n" ++
   "\t-f:\tIgnores files that don't end in .vert or .frag\n" ++
   "\t-h:\tShows help description\n\n").toList

/-- The text of `HELP_STR`. -/
def HELP_STR : CStr :=
  ("glslcl is a simple command line tool to compile-test glsl shaders without a game engine or context\n" ++
   "it either takes filenames as input through argv, or a raw shader source through stdin \n" ++
   "filenames given to glslcl are checked if the end in either .vert or .frag to select the correct shader type\n" ++
   "if a filename does not end in .vert or .frag and none of the the override or filter flags an error is thown\n" ++
   "if the -vert flag is set it will compile all shaders as vertex shaders\n" ++
   "if the -frag flag is set it will compile all shaders as fragment shaders\n" ++
   "program exits with exit code 0 if no compile issues are found otherwises it exits with exit code 1 \n").toList

/-- The conversion `%X` of an `int`: upper-case hexadecimal of its 32-bit
unsigned value. -/
def fmtHex (t : Int) : CStr :=
  (Nat.toDigits 16 (t % 4294967296).toNat).map Char.toUpper

/-- The conversion `%d` of a non-negative `int`. -/
def fmtDec (n : Nat) : CStr := Nat.toDigits 10 n

/-- The conversion `%s`; glibc prints `(null)` for a NULL pointer. -/
def fmtStr (s : Option CStr) : CStr :=
  match s with
  | some t => t
  | none => "(null)".toList

/-- The characters a `printf` of the program writes to standard output. -/
def render : Out → CStr
  | .usage => USAGE_STR
  | .help => HELP_STR
  | .testing f => "TESTING: ".toList ++ f ++ "\n".toList
  | .compiling f => "COMPILING: ".toList ++ f ++ "\n".toList
  | .usingType t => "Compiling using type 0x".toList ++ fmtHex t ++ "\n".toList
  | .allocated m l =>
    "Allocated for ".toList ++ fmtDec m ++ " bytes, actual size: ".toList ++ fmtDec l ++
      " \n".toList
  | .typeError f =>
    "ERROR: Could not determine shader type for file: ".toList ++ f ++
      ", please postfix with .vert for vertex shaders and .frag for fragment shaders\n".toList
  | .openError f => "ERROR: Could not open file ".toList ++ f ++ "\n".toList
  | .passed f => f ++ ",PASSED\n".toList
  | .failed f => f ++ ",FAILED\n".toList
  | .diag log => "\t".toList ++ fmtStr log

/-- The text on standard output after a trace. -/
def stdoutText (tr : List Ev) : CStr := (stdout tr).flatMap render

/-! ## Auxiliary definitions for the statements -/

/-- What `getType` computes from the pointer `strrchr` returned. -/
def typeOfSuffix (cfg : Config) (sfx : Option CStr) : Int :=
  if sfx = some DOT_VERT then GL_VERTEX_SHADER
  else if sfx = some DOT_FRAG then GL_FRAGMENT_SHADER
  else if cfg.typeOverride ≠ -1 then cfg.typeOverride
  else -1

/-- The flag tokens of an argument list, in order. -/
def flagsOf (args : List CStr) : List CStr := args.filter isArgument

/-- The filename tokens of an argument list, in order. -/
def filesOf (args : List CStr) : List CStr := args.filter (fun a => !isArgument a)

/-- Applying `processFlag` to a list of tokens in turn, starting from `cfg`:
the resulting configuration, or `none` when `processFlag` exits (`-h`). -/
def applyFlags (cfg : Config) : List CStr → Option Config
  | [] => some cfg
  | a :: rest =>
    match processFlag cfg a with
    | .ret _ cfg1 => applyFlags cfg1 rest
    | .exit _ _ => none

/-- The configuration after the argument-parsing pass of `main`, `none` when
the pass ends in the `exit` of `-h`. -/
def parsedConfig (args : List CStr) : Option Config :=
  match parseArgs Config.init 0 args with
  | .done cfg _ => some cfg
  | .exit _ _ => none

/-- What `main` does once the first loop has ended with `pr`. -/
def afterParse (w : World) (pr : ParseResult) (args : List CStr) : Run :=
  match pr with
  | .exit out code => { trace := out.map Ev.print, outcome := .exit code }
  | .done cfg numFilenames =>
    let l := fileLoop cfg w 0 0 args
    match l.result with
    | .abort => { trace := .createContext :: l.events, outcome := .abort }
    | .ret code => { trace := .createContext :: l.events, outcome := .exit code }
    | .done retValue =>
      if !w.isatty then
        match processStdinInput cfg w l.calls with
        | (evs, .exited code) =>
          { trace := .createContext :: (l.events ++ evs), outcome := .exit code }
        | (evs, .returned) =>
          { trace := .createContext :: (l.events ++ evs ++ [.destroyContext]),
            outcome := .exit retValue }
      else if numFilenames < 1 then
        { trace := .createContext :: (l.events ++ [.print .usage]), outcome := .exit 1 }
      else
        { trace := .createContext :: (l.events ++ [.destroyContext]),
          outcome := .exit retValue }

/-- The stage `compileShader` hands to the driver. -/
def submittedType (cfg : Config) (type : Int) : Int :=
  if cfg.typeOverride ≠ -1 then cfg.typeOverride else type

/-- Whether a token is one of the two verbosity flags `-q`, `-v`. -/
def isVerbosityFlag (a : CStr) : Bool := a == ARG_QUIET || a == ARG_VERBOSE

/-- Whether a token is one of the two stage flags `-vert`, `-frag`. -/
def isStageFlag (a : CStr) : Bool := a == ARG_ALL_VERTS || a == ARG_ALL_FRAGS

/-- The value of `logType` after `processFlag` on one token. -/
def logStep (lt : LogType) (a : CStr) : LogType :=
  if a = ARG_QUIET then .LT_QUIET else if a = ARG_VERBOSE then .LT_VERBOSE else lt

/-- The value of `typeOverride` after `processFlag` on one token. -/
def overrideStep (ov : Int) (a : CStr) : Int :=
  if a = ARG_ALL_VERTS then GL_VERTEX_SHADER
  else if a = ARG_ALL_FRAGS then GL_FRAGMENT_SHADER
  else ov

/-- Every compile call of the events `tr` (the first one being call number `k`
of the run) that the driver rejects is directly followed by the FAILED line and
the diagnostic with the info log of that call. -/
def reported (w : World) : Nat → List Ev → Prop
  | _, [] => True
  | k, .compile src ty :: rest =>
    ((w.driver k src ty).status = GL_FALSE →
      ∃ name post, rest =
        .print (.failed name) :: .print (.diag (some (w.driver k src ty).infoLog)) :: post) ∧
    reported w (k + 1) rest
  | k, .createContext :: rest => reported w k rest
  | k, .destroyContext :: rest => reported w k rest
  | k, .fopen _ :: rest => reported w k rest
  | k, .print _ :: rest => reported w k rest

/-- The reply of the driver when `processFile` compiles the file `f` as compile
call number `k` of a run without flags. -/
def fileReply (w : World) (k : Nat) (f : CStr) : DriverReply :=
  w.driver k ((w.files f).getD []) (getType Config.init f)

/-- The events `processFile` and the stdin path produce before their last
`destroyContext`: `fopen`, compile calls with the stage of a suffix or the
override that is set, and `printf`s other than the usage and help texts. -/
def fileEv (cfg : Config) : Ev → Prop
  | .createContext => False
  | .destroyContext => False
  | .fopen _ => True
  | .compile _ t =>
    t = GL_VERTEX_SHADER ∨ t = GL_FRAGMENT_SHADER ∨
      (cfg.typeOverride ≠ -1 ∧ t = cfg.typeOverride)
  | .print o => o ≠ .usage ∧ o ≠ .help

/-- The values `typeOverride` takes: unset, vertex or fragment. -/
def validOverride (cfg : Config) : Prop :=
  cfg.typeOverride = -1 ∨ cfg.typeOverride = GL_VERTEX_SHADER ∨
    cfg.typeOverride = GL_FRAGMENT_SHADER

/-! ## Example worlds -/

/-- A world with an interactive terminal: `a.vert` and `other.vert` hold a shader
the driver accepts, `b.frag` one the driver rejects; no other file exists. -/
def terminalWorld : World where
  files := fun path =>
    if path = "a.vert".toList then some "void main(){}".toList
    else if path = "other.vert".toList then some "void main(){}".toList
    else if path = "b.frag".toList then some "void main({}".toList
    else none
  driver := fun _ source _ =>
    if source = "void main(){}".toList then { status := 1, infoLog := [] }
    else { status := 0, infoLog := "0:1(11): error: syntax error\n".toList }
  isatty := true
  stdin := []

/-- The same files and driver, with a shader the driver accepts piped into
standard input. -/
def pipedWorld : World :=
  { terminalWorld with isatty := false, stdin := "void main(){}".toList }

/-- The example files and driver, with an empty pipe on standard input. -/
def emptyPipeWorld : World :=
  { terminalWorld with isatty := false, stdin := [] }

/-! # Properties -/

/-! ## Lemmas on the libc helpers -/

theorem strcmp_eq_zero_iff (a b : CStr) : strcmp a b = 0 ↔ a = b := by
  induction a generalizing b with
  | nil => cases b <;> simp [strcmp]
  | cons x xs ih =>
    cases b with
    | nil => simp [strcmp]
    | cons y ys =>
      by_cases hxy : x = y
      · simp [strcmp, hxy, ih]
      · by_cases hlt : x.toNat < y.toNat <;> simp [strcmp, hxy, hlt]

theorem strcmp_beq (a b : CStr) : (strcmp a b == 0) = decide (a = b) := by
  by_cases h : a = b
  · simp [h, (strcmp_eq_zero_iff b b).2 rfl]
  · have : strcmp a b ≠ 0 := fun h0 => h ((strcmp_eq_zero_iff a b).1 h0)
    simp [h, this]

theorem strrchr_eq_none_iff (s : CStr) (c : Char) : strrchr s c = none ↔ c ∉ s := by
  induction s with
  | nil => simp [strrchr]
  | cons x xs ih =>
    cases h : strrchr xs c with
    | none =>
      have hc : c ∉ xs := ih.1 h
      by_cases hx : x = c
      · simp [strrchr, h, hx]
      · have hx2 : ¬ c = x := fun e => hx e.symm
        simp [strrchr, h, hx, hx2, hc]
    | some t =>
      have hc : c ∈ xs := by
        by_contra hn
        rw [ih.2 hn] at h
        cases h
      simp [strrchr, h, hc]

theorem strrchr_isSome_iff (s : CStr) (c : Char) : (strrchr s c).isSome = true ↔ c ∈ s := by
  cases h : strrchr s c with
  | none => simpa using (strrchr_eq_none_iff s c).1 h
  | some t =>
    have : c ∈ s := by
      by_contra hn
      rw [(strrchr_eq_none_iff s c).2 hn] at h
      cases h
    simpa using this

/-- The pointer `strrchr` returns is the substring starting at the last
occurrence of the character. -/
theorem strrchr_last (pre suf : CStr) (c : Char) (h : c ∉ suf) :
    strrchr (pre ++ c :: suf) c = some (c :: suf) := by
  induction pre with
  | nil => simp [strrchr, (strrchr_eq_none_iff suf c).2 h]
  | cons x xs ih => simp [strrchr, ih]

/-! ## Shader-type inference and argument classification -/

theorem ptrIs_some (t lit : CStr) : ptrIs (some t) lit = decide (t = lit) := by
  simp [ptrIs, strcmp_beq]

theorem getType_eq (cfg : Config) (filename : CStr) :
    getType cfg filename = typeOfSuffix cfg (strrchr filename '.') := by
  unfold getType typeOfSuffix
  cases h : strrchr filename '.' with
  | none => simp [ptrIs]
  | some t => simp [ptrIs_some]

theorem getType_vert (cfg : Config) (pre : CStr) :
    getType cfg (pre ++ DOT_VERT) = GL_VERTEX_SHADER := by
  have h : strrchr (pre ++ DOT_VERT) '.' = some DOT_VERT :=
    strrchr_last pre ['v', 'e', 'r', 't'] '.' (by decide)
  simp [getType_eq, typeOfSuffix, h]

theorem getType_frag (cfg : Config) (pre : CStr) :
    getType cfg (pre ++ DOT_FRAG) = GL_FRAGMENT_SHADER := by
  have h : strrchr (pre ++ DOT_FRAG) '.' = some DOT_FRAG :=
    strrchr_last pre ['f', 'r', 'a', 'g'] '.' (by decide)
  have hne : DOT_FRAG ≠ DOT_VERT := by decide
  simp [getType_eq, typeOfSuffix, h, hne]

theorem isArgument_iff (arg : CStr) : isArgument arg = true ↔ '-' ∈ arg ∧ '.' ∉ arg := by
  unfold isArgument
  have h1 := strrchr_isSome_iff arg '-'
  have h2 := strrchr_isSome_iff arg '.'
  cases hm : (strrchr arg '-').isSome <;> cases hd : (strrchr arg '.').isSome <;>
    simp [hm, hd] at h1 h2 ⊢ <;> simp [h1, h2]

/-- A name the inference resolves without an override is never taken for a flag. -/
theorem not_isArgument_of_getType (filename : CStr)
    (h : getType Config.init filename ≠ -1) : isArgument filename = false := by
  by_contra hn
  have hf : isArgument filename = true := by simpa using hn
  have hdot := ((isArgument_iff filename).1 hf).2
  have hnone := (strrchr_eq_none_iff filename '.').2 hdot
  apply h
  simp [getType_eq, typeOfSuffix, hnone, Config.init]

/-! ## The two loops of `main` -/

theorem main_eq_afterParse (w : World) (args : List CStr) :
    main w args = afterParse w (parseArgs Config.init 0 args) args := by
  unfold main afterParse
  cases parseArgs Config.init 0 args <;> rfl

theorem processFlag_eq (cfg : Config) (arg : CStr) :
    processFlag cfg arg =
      if arg = ARG_QUIET then .ret 0 { cfg with logType := .LT_QUIET }
      else if arg = ARG_VERBOSE then .ret 0 { cfg with logType := .LT_VERBOSE }
      else if arg = ARG_ALL_VERTS then .ret 0 { cfg with typeOverride := GL_VERTEX_SHADER }
      else if arg = ARG_ALL_FRAGS then .ret 0 { cfg with typeOverride := GL_FRAGMENT_SHADER }
      else if arg = ARG_FILTER then .ret 0 { cfg with filterFilenames := true }
      else if arg = ARG_HELP then .exit [.usage, .help] 1
      else .ret 1 cfg := by
  simp [processFlag, strcmp_beq]

theorem processFlag_exit (cfg : Config) (arg : CStr) (out : List Out) (code : Int)
    (h : processFlag cfg arg = .exit out code) : out = [.usage, .help] ∧ code = 1 := by
  rw [processFlag_eq] at h
  split_ifs at h
  simp_all

theorem parseArgs_eq (cfg : Config) (n : Nat) (args : List CStr) :
    parseArgs cfg n args =
      match applyFlags cfg (flagsOf args) with
      | some c => .done c (n + (filesOf args).length)
      | none => .exit [.usage, .help] 1 := by
  induction args generalizing cfg n with
  | nil => simp [parseArgs, applyFlags, flagsOf, filesOf]
  | cons a rest ih =>
    by_cases ha : isArgument a = true
    · cases hp : processFlag cfg a with
      | ret code cfg1 =>
        have := ih cfg1 n
        simp only [flagsOf, filesOf] at this
        simp [parseArgs, applyFlags, flagsOf, filesOf, ha, hp, this]
      | exit out code =>
        obtain ⟨h1, h2⟩ := processFlag_exit cfg a out code hp
        simp [parseArgs, applyFlags, flagsOf, filesOf, ha, hp, h1, h2]
    · have ha2 : isArgument a = false := by simpa using ha
      have := ih cfg (n + 1)
      simp only [flagsOf, filesOf] at this
      simp [parseArgs, flagsOf, filesOf, ha2, this, Nat.add_assoc, Nat.add_comm 1]

theorem parsedConfig_eq (args : List CStr) :
    parsedConfig args = applyFlags Config.init (flagsOf args) := by
  unfold parsedConfig
  rw [parseArgs_eq]
  cases applyFlags Config.init (flagsOf args) with
  | none => rfl
  | some c => rfl

theorem fileLoop_filesOf (cfg : Config) (w : World) (k : Nat) (rv : Int) (args : List CStr) :
    fileLoop cfg w k rv args = fileLoop cfg w k rv (filesOf args) := by
  induction args generalizing k rv with
  | nil => rfl
  | cons a rest ih =>
    by_cases ha : isArgument a = true
    · have : filesOf (a :: rest) = filesOf rest := by simp [filesOf, ha]
      rw [this, ← ih]
      simp [fileLoop, ha]
    · have ha2 : isArgument a = false := by simpa using ha
      have : filesOf (a :: rest) = a :: filesOf rest := by simp [filesOf, ha2]
      rw [this]
      simp only [fileLoop, ha2]
      simp only [ih]

/-- The loop over `pre ++ post` runs over `pre` and, when that falls through
with some `retValue`, goes on over `post`. -/
theorem fileLoop_append (cfg : Config) (w : World) (k : Nat) (rv : Int)
    (pre post : List CStr) :
    fileLoop cfg w k rv (pre ++ post) =
      match (fileLoop cfg w k rv pre).result with
      | .done rv1 =>
        let l := fileLoop cfg w (fileLoop cfg w k rv pre).calls rv1 post
        { l with events := (fileLoop cfg w k rv pre).events ++ l.events }
      | _ => fileLoop cfg w k rv pre := by
  induction pre generalizing k rv with
  | nil => simp [fileLoop]
  | cons a rest ih =>
    by_cases ha : isArgument a = true
    · simp only [List.cons_append, fileLoop, ha, if_true]
      exact ih k rv
    · have ha2 : isArgument a = false := by simpa using ha
      simp only [List.cons_append, fileLoop, ha2]
      cases hr : (processFile cfg w k a).result with
      | abort => simp
      | ret code =>
        by_cases h2 : code = 2
        · simp only [h2, if_true, Bool.false_eq_true, if_false]
          have e : rest.append post = rest ++ post := rfl
          rw [e, ih]
          cases hres : (fileLoop cfg w (processFile cfg w k a).calls 1 rest).result <;> simp [hres]
        · by_cases h1 : code = 1
          · simp [h1]
          · simp only [h2, h1, if_false, Bool.false_eq_true]
            have e : rest.append post = rest ++ post := rfl
            rw [e, ih]
            cases hres : (fileLoop cfg w (processFile cfg w k a).calls rv rest).result <;> simp [hres]

theorem afterParse_filesOf (w : World) (pr : ParseResult) (args : List CStr) :
    afterParse w pr args = afterParse w pr (filesOf args) := by
  cases pr with
  | exit out code => rfl
  | done cfg n =>
    simp only [afterParse]
    rw [fileLoop_filesOf]

theorem afterParse_trace (w : World) (cfg : Config) (n : Nat) (args : List CStr) :
    ∃ rest, (afterParse w (.done cfg n) args).trace =
      .createContext :: ((fileLoop cfg w 0 0 args).events ++ rest) := by
  simp only [afterParse]
  cases hres : (fileLoop cfg w 0 0 args).result with
  | abort => exact ⟨[], by simp⟩
  | ret code => exact ⟨[], by simp⟩
  | done rv =>
    by_cases htty : w.isatty = true
    · by_cases hn : n < 1
      · exact ⟨[.print .usage], by simp [htty, hn]⟩
      · exact ⟨[.destroyContext], by simp [htty, hn]⟩
    · have htty2 : w.isatty = false := by simpa using htty
      rcases hs : processStdinInput cfg w (fileLoop cfg w 0 0 args).calls with ⟨evs, e⟩
      cases e with
      | returned => exact ⟨evs ++ [.destroyContext], by simp [htty2]⟩
      | exited code => exact ⟨evs, by simp [htty2]⟩

theorem fileLoop_cons_events (cfg : Config) (w : World) (k : Nat) (rv : Int) (f : CStr)
    (post : List CStr) (hf : isArgument f = false) :
    ∃ rest, (fileLoop cfg w k rv (f :: post)).events = (processFile cfg w k f).events ++ rest := by
  simp only [fileLoop, hf]
  cases hr : (processFile cfg w k f).result with
  | abort => exact ⟨[], by simp⟩
  | ret code =>
    by_cases h2 : code = 2
    · exact ⟨(fileLoop cfg w (processFile cfg w k f).calls 1 post).events, by simp [h2]⟩
    · by_cases h1 : code = 1
      · exact ⟨[.destroyContext], by simp [h1]⟩
      · exact ⟨(fileLoop cfg w (processFile cfg w k f).calls rv post).events, by simp [h2, h1]⟩

/-! ## What `processFile` does, case by case -/

theorem cstrOf_append_nul (content : List Char) (hn : NUL ∉ content) :
    cstrOf (content ++ [NUL]) = content := by
  induction content with
  | nil => simp [cstrOf]
  | cons c cs ih =>
    have hc : (c != NUL) = true := by
      have : c ≠ NUL := fun e => hn (by simp [e])
      simpa using this
    have hcs : NUL ∉ cs := fun e => hn (by simp [e])
    have := ih hcs
    simp only [cstrOf] at this ⊢
    simp [List.takeWhile, hc, this]

theorem readFile_ok (w : World) (f : CStr) (content : List Char)
    (h : w.files f = some content) (hn : NUL ∉ content) :
    readFile w f = .ok (content ++ [NUL]) := by
  simp [readFile, h, strlen, cstrOf_append_nul content hn]

theorem readFile_null (w : World) (f : CStr) (h : w.files f = none) :
    readFile w f = .null := by
  simp [readFile, h]

theorem compileShader_eq (cfg : Config) (w : World) (k : Nat) (source : CStr) (type : Int) :
    compileShader cfg w k source type =
      if (w.driver k source (submittedType cfg type)).status = GL_FALSE then
        { events := LOG_DEBUG cfg (.usingType (submittedType cfg type)) ++
            [.compile source (submittedType cfg type)],
          ret := 1, log := some (w.driver k source (submittedType cfg type)).infoLog }
      else
        { events := LOG_DEBUG cfg (.usingType (submittedType cfg type)) ++
            [.compile source (submittedType cfg type)],
          ret := 0, log := none } := by
  simp [compileShader, submittedType]

theorem processFile_typeError (cfg : Config) (w : World) (k : Nat) (f : CStr)
    (ht : getType cfg f = -1) (hfilter : cfg.filterFilenames = false) :
    processFile cfg w k f =
      { events := LOG_DEBUG cfg (.testing f) ++ [.print (.typeError f)], calls := k,
        result := .ret 1 } := by
  simp [processFile, ht, hfilter, LOG_ERROR]

theorem processFile_skipped (cfg : Config) (w : World) (k : Nat) (f : CStr)
    (ht : getType cfg f = -1) (hfilter : cfg.filterFilenames = true) :
    processFile cfg w k f =
      { events := LOG_DEBUG cfg (.testing f), calls := k, result := .ret 0 } := by
  simp [processFile, ht, hfilter]

theorem processFile_openError (cfg : Config) (w : World) (k : Nat) (f : CStr)
    (ht : getType cfg f ≠ -1) (hfile : w.files f = none) :
    processFile cfg w k f =
      { events := LOG_DEBUG cfg (.testing f) ++ [.fopen f, .print (.openError f)], calls := k,
        result := .ret 1 } := by
  simp [processFile, ht, readFile_null w f hfile, LOG_ERROR]

theorem processFile_rejected (cfg : Config) (w : World) (k : Nat) (f : CStr)
    (content : List Char) (ht : getType cfg f ≠ -1) (hfile : w.files f = some content)
    (hn : NUL ∉ content)
    (hrej : (w.driver k content (submittedType cfg (getType cfg f))).status = GL_FALSE) :
    processFile cfg w k f =
      { events := LOG_DEBUG cfg (.testing f) ++ [.fopen f] ++ LOG_DEBUG cfg (.compiling f) ++
          LOG_DEBUG cfg (.usingType (submittedType cfg (getType cfg f))) ++
          [.compile content (submittedType cfg (getType cfg f)), .print (.failed f),
            .print (.diag (some
              (w.driver k content (submittedType cfg (getType cfg f))).infoLog))],
        calls := k + 1, result := .ret 2 } := by
  simp [processFile, ht, readFile_ok w f content hfile hn, cstrOf_append_nul content hn,
    compileShader_eq, hrej, LOG_ERROR]

theorem processFile_accepted (cfg : Config) (w : World) (k : Nat) (f : CStr)
    (content : List Char) (ht : getType cfg f ≠ -1) (hfile : w.files f = some content)
    (hn : NUL ∉ content)
    (hacc : (w.driver k content (submittedType cfg (getType cfg f))).status ≠ GL_FALSE) :
    processFile cfg w k f =
      { events := LOG_DEBUG cfg (.testing f) ++ [.fopen f] ++ LOG_DEBUG cfg (.compiling f) ++
          LOG_DEBUG cfg (.usingType (submittedType cfg (getType cfg f))) ++
          [.compile content (submittedType cfg (getType cfg f))] ++ LOG_INFO cfg (.passed f),
        calls := k + 1, result := .ret 0 } := by
  simp [processFile, ht, readFile_ok w f content hfile hn, cstrOf_append_nul content hn,
    compileShader_eq, hacc]

theorem compileCalls_append (a b : List Ev) :
    compileCalls (a ++ b) = compileCalls a ++ compileCalls b := by
  simp [compileCalls, List.filterMap_append]

theorem stdout_append (a b : List Ev) : stdout (a ++ b) = stdout a ++ stdout b := by
  simp [stdout, List.filterMap_append]

theorem compileCalls_LOG_DEBUG (cfg : Config) (o : Out) : compileCalls (LOG_DEBUG cfg o) = [] := by
  unfold LOG_DEBUG
  split_ifs <;> simp [compileCalls]

theorem compileCalls_LOG_INFO (cfg : Config) (o : Out) : compileCalls (LOG_INFO cfg o) = [] := by
  unfold LOG_INFO
  split_ifs <;> simp [compileCalls]

/-! ## Claims on single functions -/

/-- C5: `getType` decides from the substring starting at the last `.` of the
name only.  For a name `pre ++ '.' :: suf` whose last dot is the displayed one,
the result is vertex when that substring is exactly `.vert`, fragment when it is
exactly `.frag`, and otherwise the override if one is set and `-1` if not; a
name without any dot also gets the override if one is set and `-1` if not.
The suffix alone decides between vertex and fragment: with no override set the
result is vertex iff the substring is `.vert` and fragment iff it is `.frag`. -/
theorem getType_decides_from_last_dot (cfg : Config) (filename : CStr) :
    (∀ pre suf : CStr, filename = pre ++ '.' :: suf → '.' ∉ suf →
      getType cfg filename =
        if '.' :: suf = ['.', 'v', 'e', 'r', 't'] then GL_VERTEX_SHADER
        else if '.' :: suf = ['.', 'f', 'r', 'a', 'g'] then GL_FRAGMENT_SHADER
        else if cfg.typeOverride ≠ -1 then cfg.typeOverride
        else -1) ∧
    ('.' ∉ filename →
      getType cfg filename = if cfg.typeOverride ≠ -1 then cfg.typeOverride else -1) ∧
    (∀ pre suf : CStr, filename = pre ++ '.' :: suf → '.' ∉ suf → cfg.typeOverride = -1 →
      (getType cfg filename = GL_VERTEX_SHADER ↔ '.' :: suf = ['.', 'v', 'e', 'r', 't']) ∧
      (getType cfg filename = GL_FRAGMENT_SHADER ↔ '.' :: suf = ['.', 'f', 'r', 'a', 'g'])) := by
  have key : ∀ pre suf : CStr, filename = pre ++ '.' :: suf → '.' ∉ suf →
      getType cfg filename =
        if '.' :: suf = ['.', 'v', 'e', 'r', 't'] then GL_VERTEX_SHADER
        else if '.' :: suf = ['.', 'f', 'r', 'a', 'g'] then GL_FRAGMENT_SHADER
        else if cfg.typeOverride ≠ -1 then cfg.typeOverride
        else -1 := by
    intro pre suf he hs
    subst he
    rw [getType_eq, strrchr_last pre suf '.' hs]
    simp [typeOfSuffix, DOT_VERT, DOT_FRAG]
  refine ⟨key, ?_, ?_⟩
  · intro hn
    rw [getType_eq, (strrchr_eq_none_iff filename '.').2 hn]
    simp [typeOfSuffix]
  · intro pre suf he hs hov
    rw [key pre suf he hs]
    have hne : GL_VERTEX_SHADER ≠ GL_FRAGMENT_SHADER := by decide
    have hv1 : (-1 : Int) ≠ GL_VERTEX_SHADER := by decide
    have hf1 : (-1 : Int) ≠ GL_FRAGMENT_SHADER := by decide
    by_cases hv : '.' :: suf = ['.', 'v', 'e', 'r', 't']
    · rw [if_pos hv]
      have hf : ¬ '.' :: suf = ['.', 'f', 'r', 'a', 'g'] := by
        rw [hv]
        decide
      exact ⟨⟨fun _ => hv, fun _ => rfl⟩, ⟨fun h => absurd h hne, fun h => absurd h hf⟩⟩
    · by_cases hf : '.' :: suf = ['.', 'f', 'r', 'a', 'g']
      · rw [if_neg hv, if_pos hf]
        exact ⟨⟨fun h => absurd h.symm hne, fun h => absurd h hv⟩, ⟨fun _ => hf, fun _ => rfl⟩⟩
      · rw [if_neg hv, if_neg hf, if_neg (by simp [hov])]
        exact ⟨⟨fun h => absurd h hv1, fun h => absurd h hv⟩,
          ⟨fun h => absurd h hf1, fun h => absurd h hf⟩⟩

/-- Witness of C5 at `dir.d/a.frag` with the override set to vertex. -/
theorem getType_decides_from_last_dot_witness :
    getType ⟨.LT_DEFAULT, GL_VERTEX_SHADER, false⟩ "dir.d/a.frag".toList = GL_FRAGMENT_SHADER ∧
    getType ⟨.LT_DEFAULT, GL_VERTEX_SHADER, false⟩ "shader".toList = GL_VERTEX_SHADER := by
  have h := getType_decides_from_last_dot ⟨.LT_DEFAULT, GL_VERTEX_SHADER, false⟩
  refine ⟨?_, ?_⟩
  · have h1 := (h "dir.d/a.frag".toList).1 "dir.d/a".toList "frag".toList (by decide) (by decide)
    rw [h1]; decide
  · have h2 := (h "shader".toList).2.1 (by decide)
    rw [h2]; decide

/-- C6: `isArgument` takes a token for a flag exactly when the token contains a
`-` and contains no `.`; so `my-shader` is taken for a flag and `-q.x` for a
filename. -/
theorem isArgument_iff_minus_and_no_dot :
    (∀ arg : CStr, isArgument arg = true ↔ ('-' ∈ arg ∧ '.' ∉ arg)) ∧
    isArgument "my-shader".toList = true ∧
    isArgument "-q.x".toList = false := by
  refine ⟨isArgument_iff, by decide, by decide⟩

/-- C7: `processFlag` changes the one field the flag table assigns and keeps the
other two: `-q` sets `logType` to quiet, `-v` to verbose, `-vert` sets the
override to vertex, `-frag` to fragment, `-f` sets `filterFilenames`, each
returning 0; every token other than these and `-h` returns 1 with the
configuration unchanged. -/
theorem processFlag_frame (cfg : Config) :
    processFlag cfg "-q".toList = .ret 0 ⟨.LT_QUIET, cfg.typeOverride, cfg.filterFilenames⟩ ∧
    processFlag cfg "-v".toList = .ret 0 ⟨.LT_VERBOSE, cfg.typeOverride, cfg.filterFilenames⟩ ∧
    processFlag cfg "-vert".toList = .ret 0 ⟨cfg.logType, GL_VERTEX_SHADER, cfg.filterFilenames⟩ ∧
    processFlag cfg "-frag".toList = .ret 0 ⟨cfg.logType, GL_FRAGMENT_SHADER, cfg.filterFilenames⟩ ∧
    processFlag cfg "-f".toList = .ret 0 ⟨cfg.logType, cfg.typeOverride, true⟩ ∧
    (∀ arg : CStr, arg ≠ "-q".toList → arg ≠ "-v".toList → arg ≠ "-vert".toList →
      arg ≠ "-frag".toList → arg ≠ "-f".toList → arg ≠ "-h".toList →
      processFlag cfg arg = .ret 1 cfg) := by
  refine ⟨?_, ?_, ?_, ?_, ?_, ?_⟩
  · simp [processFlag, strcmp_beq, ARG_QUIET]
  · simp [processFlag, strcmp_beq, ARG_QUIET, ARG_VERBOSE]
  · simp [processFlag, strcmp_beq, ARG_QUIET, ARG_VERBOSE, ARG_ALL_VERTS]
  · simp [processFlag, strcmp_beq, ARG_QUIET, ARG_VERBOSE, ARG_ALL_VERTS, ARG_ALL_FRAGS]
  · simp [processFlag, strcmp_beq, ARG_QUIET, ARG_VERBOSE, ARG_ALL_VERTS, ARG_ALL_FRAGS,
      ARG_FILTER]
  · intro arg h1 h2 h3 h4 h5 h6
    have e1 : ¬ arg = ARG_QUIET := h1
    have e2 : ¬ arg = ARG_VERBOSE := h2
    have e3 : ¬ arg = ARG_ALL_VERTS := h3
    have e4 : ¬ arg = ARG_ALL_FRAGS := h4
    have e5 : ¬ arg = ARG_FILTER := h5
    have e6 : ¬ arg = ARG_HELP := h6
    simp [processFlag, strcmp_beq, e1, e2, e3, e4, e5, e6]

/-- Witness of C7 at the unrecognised token `-x` with the initial configuration. -/
theorem processFlag_frame_witness :
    processFlag Config.init "-x".toList = .ret 1 Config.init :=
  (processFlag_frame Config.init).2.2.2.2.2 "-x".toList
    (by decide) (by decide) (by decide) (by decide) (by decide) (by decide)

/-! ## Claims on whole runs -/

theorem parseArgs_of_parsedConfig (args : List CStr) (cfg : Config)
    (h : parsedConfig args = some cfg) :
    ∃ n, parseArgs Config.init 0 args = .done cfg n := by
  unfold parsedConfig at h
  cases hp : parseArgs Config.init 0 args with
  | done c n =>
    rw [hp] at h
    simp only [Option.some.injEq] at h
    exact ⟨n, by rw [h]⟩
  | exit out code =>
    rw [hp] at h
    cases h

/-- A run in which the loop gets past the tokens `pre` and `processFile` then
returns 1 for the filename `f`. -/
theorem main_of_file_error (w : World) (pre post : List CStr) (f : CStr) (cfg : Config)
    (rv : Int) (hcfg : parsedConfig (pre ++ f :: post) = some cfg)
    (hf : isArgument f = false)
    (hpre : (fileLoop cfg w 0 0 pre).result = .done rv)
    (hres : (processFile cfg w (fileLoop cfg w 0 0 pre).calls f).result = .ret 1) :
    main w (pre ++ f :: post) =
      { trace := .createContext :: ((fileLoop cfg w 0 0 pre).events ++
          (processFile cfg w (fileLoop cfg w 0 0 pre).calls f).events ++ [.destroyContext]),
        outcome := .exit 1 } := by
  obtain ⟨n, hp⟩ := parseArgs_of_parsedConfig _ cfg hcfg
  rw [main_eq_afterParse, hp]
  have hl : fileLoop cfg w 0 0 (pre ++ f :: post) =
      { events := (fileLoop cfg w 0 0 pre).events ++
          ((processFile cfg w (fileLoop cfg w 0 0 pre).calls f).events ++ [.destroyContext]),
        calls := (processFile cfg w (fileLoop cfg w 0 0 pre).calls f).calls,
        result := .ret 1 } := by
    rw [fileLoop_append, hpre]
    simp [fileLoop, hf, hres]
  simp [afterParse, hl]

/-- The first events of a run in which the loop gets past the tokens `pre` and
reaches the filename `f`. -/
theorem main_trace_of_reached (w : World) (pre post : List CStr) (f : CStr) (cfg : Config)
    (rv : Int) (hcfg : parsedConfig (pre ++ f :: post) = some cfg)
    (hf : isArgument f = false)
    (hpre : (fileLoop cfg w 0 0 pre).result = .done rv) :
    ∃ rest, (main w (pre ++ f :: post)).trace =
      .createContext :: ((fileLoop cfg w 0 0 pre).events ++
        (processFile cfg w (fileLoop cfg w 0 0 pre).calls f).events ++ rest) := by
  obtain ⟨n, hp⟩ := parseArgs_of_parsedConfig _ cfg hcfg
  rw [main_eq_afterParse, hp]
  obtain ⟨r1, h1⟩ := afterParse_trace w cfg n (pre ++ f :: post)
  obtain ⟨r2, h2⟩ := fileLoop_cons_events cfg w (fileLoop cfg w 0 0 pre).calls rv f post hf
  refine ⟨r2 ++ r1, ?_⟩
  rw [h1, fileLoop_append, hpre]
  simp [h2]

/-- C1 (the code at the failing input): `b.frag` is rejected by the driver and
reported as FAILED, standard input is a pipe holding a shader the driver
accepts; the stdin path then ends the process with `exit(0)`, and the
`retValue = 1` recorded for `b.frag` is lost. -/
theorem compile_failure_lost_on_stdin_exit :
    main pipedWorld ["b.frag".toList] =
      { trace := [.createContext, .fopen "b.frag".toList,
          .compile "void main({}".toList GL_FRAGMENT_SHADER,
          .print (.failed "b.frag".toList),
          .print (.diag (some "0:1(11): error: syntax error\n".toList)),
          .compile "void main(){}".toList GL_VERTEX_SHADER,
          .print (.passed "stdin".toList), .destroyContext],
        outcome := .exit 0 } := by
  decide

/-- C2: when the loop of `main` reaches a filename `f` for which `processFile`
reports an unrecoverable file error (its type is `-1` with filter mode off, or
its type resolves and `fopen` fails), the run consists of the context creation,
the processing of the tokens before `f`, the error naming `f`, and
`destroyContext`; the exit status is 1 and nothing of the tokens after `f` is
read or compiled. -/
theorem fatal_file_error_stops_run (w : World) (pre post : List CStr) (f : CStr)
    (cfg : Config) (rv : Int)
    (hcfg : parsedConfig (pre ++ f :: post) = some cfg)
    (hf : isArgument f = false)
    (hpre : (fileLoop cfg w 0 0 pre).result = .done rv)
    (hfatal : (getType cfg f = -1 ∧ cfg.filterFilenames = false) ∨
      (getType cfg f ≠ -1 ∧ w.files f = none)) :
    main w (pre ++ f :: post) =
      { trace := .createContext :: ((fileLoop cfg w 0 0 pre).events ++
          LOG_DEBUG cfg (.testing f) ++
          (if getType cfg f = -1 then [.print (.typeError f)]
            else [.fopen f, .print (.openError f)]) ++
          [.destroyContext]),
        outcome := .exit 1 } := by
  rcases hfatal with ⟨ht, hfl⟩ | ⟨ht, hfile⟩
  · have hp := processFile_typeError cfg w (fileLoop cfg w 0 0 pre).calls f ht hfl
    rw [main_of_file_error w pre post f cfg rv hcfg hf hpre (by rw [hp]), hp]
    simp [ht]
  · have hp := processFile_openError cfg w (fileLoop cfg w 0 0 pre).calls f ht hfile
    rw [main_of_file_error w pre post f cfg rv hcfg hf hpre (by rw [hp]), hp]
    simp [ht]

/-- Witness of C2: `shader.glsl other.vert` without flags exits 1 after the error
naming `shader.glsl`; `other.vert` is neither opened nor compiled. -/
theorem fatal_file_error_stops_run_witness :
    main terminalWorld ["shader.glsl".toList, "other.vert".toList] =
      { trace := [.createContext, .print (.typeError "shader.glsl".toList), .destroyContext],
        outcome := .exit 1 } := by
  have h := fatal_file_error_stops_run terminalWorld [] ["other.vert".toList]
    "shader.glsl".toList Config.init 0 (by decide) (by decide) (by decide)
    (Or.inl ⟨by decide, by decide⟩)
  rw [List.nil_append] at h
  rw [h]
  decide

/-- C3: for a name ending in `.vert` (resp. `.frag`) `getType` returns vertex
(resp. fragment) whatever the override is, and the compile step of
`processFile` on a readable file of that name hands the driver the override
when one is set and the stage of the suffix only when none is set. -/
theorem override_wins_at_compile_step (cfg : Config) (w : World) (k : Nat) (pre : CStr)
    (content : List Char) :
    getType cfg (pre ++ ".vert".toList) = GL_VERTEX_SHADER ∧
    getType cfg (pre ++ ".frag".toList) = GL_FRAGMENT_SHADER ∧
    (w.files (pre ++ ".vert".toList) = some content → NUL ∉ content →
      compileCalls (processFile cfg w k (pre ++ ".vert".toList)).events =
        [(content, if cfg.typeOverride ≠ -1 then cfg.typeOverride else GL_VERTEX_SHADER)]) ∧
    (w.files (pre ++ ".frag".toList) = some content → NUL ∉ content →
      compileCalls (processFile cfg w k (pre ++ ".frag".toList)).events =
        [(content, if cfg.typeOverride ≠ -1 then cfg.typeOverride else GL_FRAGMENT_SHADER)]) := by
  have hv : getType cfg (pre ++ ".vert".toList) = GL_VERTEX_SHADER := getType_vert cfg pre
  have hfr : getType cfg (pre ++ ".frag".toList) = GL_FRAGMENT_SHADER := getType_frag cfg pre
  have key : ∀ f : CStr, getType cfg f ≠ -1 → w.files f = some content → NUL ∉ content →
      compileCalls (processFile cfg w k f).events =
        [(content, submittedType cfg (getType cfg f))] := by
    intro f ht hfile hn
    have e1 := fun o => compileCalls_LOG_DEBUG cfg o
    have e2 := fun o => compileCalls_LOG_INFO cfg o
    simp only [compileCalls] at e1 e2 ⊢
    by_cases hrej : (w.driver k content (submittedType cfg (getType cfg f))).status = GL_FALSE
    · rw [processFile_rejected cfg w k f content ht hfile hn hrej]
      simp [List.filterMap_append, e1]
    · rw [processFile_accepted cfg w k f content ht hfile hn hrej]
      simp [List.filterMap_append, e1, e2]
  refine ⟨hv, hfr, ?_, ?_⟩
  · intro hfile hn
    have := key _ (by rw [hv]; decide) hfile hn
    rw [this, hv]
    rfl
  · intro hfile hn
    have := key _ (by rw [hfr]; decide) hfile hn
    rw [this, hfr]
    rfl

/-- Witness of C3: with `-frag` set, `a.vert` resolves to vertex in `getType` and
is compiled as a fragment shader. -/
theorem override_wins_at_compile_step_witness :
    getType ⟨.LT_DEFAULT, GL_FRAGMENT_SHADER, false⟩ "a.vert".toList = GL_VERTEX_SHADER ∧
    compileCalls
        (processFile ⟨.LT_DEFAULT, GL_FRAGMENT_SHADER, false⟩ terminalWorld 0
          "a.vert".toList).events =
      [("void main(){}".toList, GL_FRAGMENT_SHADER)] := by
  have h := override_wins_at_compile_step ⟨.LT_DEFAULT, GL_FRAGMENT_SHADER, false⟩
    terminalWorld 0 "a".toList "void main(){}".toList
  exact ⟨h.1, h.2.2.1 (by decide) (by decide)⟩

/-! ## Flags and their order -/

theorem processFlag_help (cfg : Config) :
    processFlag cfg ARG_HELP = .exit [.usage, .help] 1 := by
  rw [processFlag_eq]
  simp [ARG_QUIET, ARG_VERBOSE, ARG_ALL_VERTS, ARG_ALL_FRAGS, ARG_FILTER, ARG_HELP]

theorem processFlag_step (cfg : Config) (a : CStr) (ha : a ≠ ARG_HELP) :
    ∃ code, processFlag cfg a =
      .ret code ⟨logStep cfg.logType a, overrideStep cfg.typeOverride a,
        cfg.filterFilenames || decide (a = ARG_FILTER)⟩ := by
  rw [processFlag_eq]
  unfold logStep overrideStep
  by_cases h1 : a = ARG_QUIET
  · subst h1
    exact ⟨0, by
      simp [ARG_QUIET, ARG_VERBOSE, ARG_ALL_VERTS, ARG_ALL_FRAGS, ARG_FILTER, ARG_HELP]⟩
  by_cases h2 : a = ARG_VERBOSE
  · subst h2
    exact ⟨0, by
      simp [ARG_QUIET, ARG_VERBOSE, ARG_ALL_VERTS, ARG_ALL_FRAGS, ARG_FILTER, ARG_HELP]⟩
  by_cases h3 : a = ARG_ALL_VERTS
  · subst h3
    exact ⟨0, by
      simp [ARG_QUIET, ARG_VERBOSE, ARG_ALL_VERTS, ARG_ALL_FRAGS, ARG_FILTER, ARG_HELP]⟩
  by_cases h4 : a = ARG_ALL_FRAGS
  · subst h4
    exact ⟨0, by
      simp [ARG_QUIET, ARG_VERBOSE, ARG_ALL_VERTS, ARG_ALL_FRAGS, ARG_FILTER, ARG_HELP]⟩
  by_cases h5 : a = ARG_FILTER
  · subst h5
    exact ⟨0, by
      simp [ARG_QUIET, ARG_VERBOSE, ARG_ALL_VERTS, ARG_ALL_FRAGS, ARG_FILTER, ARG_HELP]⟩
  exact ⟨1, by simp [h1, h2, h3, h4, h5, ha]⟩

/-- The configuration after a list of flags, field by field. -/
theorem applyFlags_eq (cfg : Config) (l : List CStr) :
    applyFlags cfg l =
      if ARG_HELP ∈ l then none
      else some ⟨l.foldl logStep cfg.logType, l.foldl overrideStep cfg.typeOverride,
        cfg.filterFilenames || decide (ARG_FILTER ∈ l)⟩ := by
  induction l generalizing cfg with
  | nil => simp [applyFlags]
  | cons a rest ih =>
    by_cases ha : a = ARG_HELP
    · subst ha
      simp [applyFlags, processFlag_help]
    · obtain ⟨code, hp⟩ := processFlag_step cfg a ha
      have ha2 : ¬ ARG_HELP = a := fun e => ha e.symm
      simp only [applyFlags, hp, ih, List.mem_cons, ha2, false_or, List.foldl_cons]
      by_cases hh : ARG_HELP ∈ rest
      · simp [hh]
      · by_cases hf : a = ARG_FILTER
        · simp [hh, hf]
        · have hf2 : ¬ ARG_FILTER = a := fun e => hf e.symm
          simp [hh, hf, hf2]

theorem foldl_logStep_filter (lt : LogType) (l : List CStr) :
    l.foldl logStep lt = (l.filter isVerbosityFlag).foldl logStep lt := by
  induction l generalizing lt with
  | nil => rfl
  | cons a rest ih =>
    by_cases h : isVerbosityFlag a = true
    · simp [List.filter, h, ih (logStep lt a)]
    · have h2 : isVerbosityFlag a = false := by simpa using h
      have hs : logStep lt a = lt := by
        simp only [isVerbosityFlag, Bool.or_eq_false_iff, beq_eq_false_iff_ne] at h2
        simp [logStep, h2.1, h2.2]
      simp [List.filter, h2, hs, ih lt]

theorem foldl_overrideStep_filter (ov : Int) (l : List CStr) :
    l.foldl overrideStep ov = (l.filter isStageFlag).foldl overrideStep ov := by
  induction l generalizing ov with
  | nil => rfl
  | cons a rest ih =>
    by_cases h : isStageFlag a = true
    · simp [List.filter, h, ih (overrideStep ov a)]
    · have h2 : isStageFlag a = false := by simpa using h
      have hs : overrideStep ov a = ov := by
        simp only [isStageFlag, Bool.or_eq_false_iff, beq_eq_false_iff_ne] at h2
        simp [overrideStep, h2.1, h2.2]
      simp [List.filter, h2, hs, ih ov]

/-- C8: the configuration under which `main` processes a file is the one obtained
by applying `processFlag` to all flag tokens of the whole argument list, also
for a file `f` that stands before some of the flags; hence two argument lists
with the same flag tokens in the same order and the same filenames in the same
order give the same run (same events, same output, same exit status). -/
theorem flags_anywhere_apply_to_every_file (w : World) (args : List CStr) :
    (∀ cfg, applyFlags Config.init (flagsOf args) = some cfg →
      ∀ (pre : List CStr) (f : CStr) (post : List CStr) (rv : Int),
        args = pre ++ f :: post → isArgument f = false →
        (fileLoop cfg w 0 0 pre).result = .done rv →
        ∃ rest, (main w args).trace =
          .createContext :: ((fileLoop cfg w 0 0 pre).events ++
            (processFile cfg w (fileLoop cfg w 0 0 pre).calls f).events ++ rest)) ∧
    (∀ args2, flagsOf args2 = flagsOf args → filesOf args2 = filesOf args →
      main w args2 = main w args) := by
  constructor
  · intro cfg hcfg pre f post rv hargs hf hpre
    subst hargs
    exact main_trace_of_reached w pre post f cfg rv (by rw [parsedConfig_eq, hcfg]) hf hpre
  · intro args2 h1 h2
    rw [main_eq_afterParse, main_eq_afterParse, parseArgs_eq, parseArgs_eq,
      afterParse_filesOf w _ args2, afterParse_filesOf w _ args, h1, h2]

/-- Witness of C8: `a.vert -q` and `-q a.vert` give the same run, and `a.vert`,
which stands before `-q`, is processed quietly: nothing is printed. -/
theorem flags_anywhere_apply_to_every_file_witness :
    main terminalWorld ["-q".toList, "a.vert".toList] =
      main terminalWorld ["a.vert".toList, "-q".toList] ∧
    stdout (main terminalWorld ["a.vert".toList, "-q".toList]).trace = [] ∧
    ∃ rest, (main terminalWorld ["a.vert".toList, "-q".toList]).trace =
      .createContext :: ((fileLoop ⟨.LT_QUIET, -1, false⟩ terminalWorld 0 0 []).events ++
        (processFile ⟨.LT_QUIET, -1, false⟩ terminalWorld
          (fileLoop ⟨.LT_QUIET, -1, false⟩ terminalWorld 0 0 []).calls "a.vert".toList).events ++
        rest) :=
  ⟨(flags_anywhere_apply_to_every_file terminalWorld ["a.vert".toList, "-q".toList]).2
      ["-q".toList, "a.vert".toList] (by decide) (by decide), by decide,
    (flags_anywhere_apply_to_every_file terminalWorld ["a.vert".toList, "-q".toList]).1
      ⟨.LT_QUIET, -1, false⟩ (by decide) [] "a.vert".toList ["-q".toList] 0 rfl (by decide)
      (by decide)⟩

theorem parsedConfig_perm (args1 args2 : List CStr)
    (hperm : (flagsOf args1).Perm (flagsOf args2))
    (hverb : (flagsOf args1).filter isVerbosityFlag = (flagsOf args2).filter isVerbosityFlag)
    (hstage : (flagsOf args1).filter isStageFlag = (flagsOf args2).filter isStageFlag) :
    parsedConfig args1 = parsedConfig args2 := by
  rw [parsedConfig_eq, parsedConfig_eq, applyFlags_eq, applyFlags_eq,
    foldl_logStep_filter _ (flagsOf args1), foldl_logStep_filter _ (flagsOf args2),
    foldl_overrideStep_filter _ (flagsOf args1), foldl_overrideStep_filter _ (flagsOf args2),
    hverb, hstage]
  have hh : ARG_HELP ∈ flagsOf args1 ↔ ARG_HELP ∈ flagsOf args2 := hperm.mem_iff
  have hf : ARG_FILTER ∈ flagsOf args1 ↔ ARG_FILTER ∈ flagsOf args2 := hperm.mem_iff
  simp [hh, hf]

theorem logStep_of_not_flag (lt : LogType) (a : CStr) (h : isArgument a = false) :
    logStep lt a = lt := by
  have h1 : ¬ a = ARG_QUIET := fun e => by rw [e] at h; revert h; decide
  have h2 : ¬ a = ARG_VERBOSE := fun e => by rw [e] at h; revert h; decide
  simp [logStep, h1, h2]

theorem overrideStep_of_not_flag (ov : Int) (a : CStr) (h : isArgument a = false) :
    overrideStep ov a = ov := by
  have h1 : ¬ a = ARG_ALL_VERTS := fun e => by rw [e] at h; revert h; decide
  have h2 : ¬ a = ARG_ALL_FRAGS := fun e => by rw [e] at h; revert h; decide
  simp [overrideStep, h1, h2]

theorem foldl_logStep_flagsOf (lt : LogType) (l : List CStr) :
    (flagsOf l).foldl logStep lt = l.foldl logStep lt := by
  induction l generalizing lt with
  | nil => rfl
  | cons a rest ih =>
    by_cases h : isArgument a = true
    · have : flagsOf (a :: rest) = a :: flagsOf rest := by simp [flagsOf, h]
      rw [this, List.foldl_cons, List.foldl_cons, ih]
    · have h2 : isArgument a = false := by simpa using h
      have : flagsOf (a :: rest) = flagsOf rest := by simp [flagsOf, h2]
      rw [this, List.foldl_cons, logStep_of_not_flag lt a h2, ih]

theorem foldl_overrideStep_flagsOf (ov : Int) (l : List CStr) :
    (flagsOf l).foldl overrideStep ov = l.foldl overrideStep ov := by
  induction l generalizing ov with
  | nil => rfl
  | cons a rest ih =>
    by_cases h : isArgument a = true
    · have : flagsOf (a :: rest) = a :: flagsOf rest := by simp [flagsOf, h]
      rw [this, List.foldl_cons, List.foldl_cons, ih]
    · have h2 : isArgument a = false := by simpa using h
      have : flagsOf (a :: rest) = flagsOf rest := by simp [flagsOf, h2]
      rw [this, List.foldl_cons, overrideStep_of_not_flag ov a h2, ih]

theorem foldl_logStep_none (lt : LogType) (l : List CStr)
    (h : ∀ b ∈ l, b ≠ ARG_QUIET ∧ b ≠ ARG_VERBOSE) : l.foldl logStep lt = lt := by
  induction l generalizing lt with
  | nil => rfl
  | cons a rest ih =>
    have ha := h a (List.mem_cons_self _ _)
    have hs : logStep lt a = lt := by simp [logStep, ha.1, ha.2]
    rw [List.foldl_cons, hs]
    exact ih lt (fun b hb => h b (List.mem_cons_of_mem _ hb))

theorem foldl_overrideStep_none (ov : Int) (l : List CStr)
    (h : ∀ b ∈ l, b ≠ ARG_ALL_VERTS ∧ b ≠ ARG_ALL_FRAGS) : l.foldl overrideStep ov = ov := by
  induction l generalizing ov with
  | nil => rfl
  | cons a rest ih =>
    have ha := h a (List.mem_cons_self _ _)
    have hs : overrideStep ov a = ov := by simp [overrideStep, ha.1, ha.2]
    rw [List.foldl_cons, hs]
    exact ih ov (fun b hb => h b (List.mem_cons_of_mem _ hb))

theorem mem_flagsOf_of_flag (a : CStr) (l : List CStr) (ha : isArgument a = true) :
    a ∈ flagsOf l ↔ a ∈ l := by
  simp [flagsOf, List.mem_filter, ha]

/-- The configuration after the parsing pass, field by field over the whole
argument list. -/
theorem parsedConfig_closed (args : List CStr) :
    parsedConfig args =
      if ARG_HELP ∈ args then none
      else some ⟨args.foldl logStep .LT_DEFAULT, args.foldl overrideStep (-1),
        decide (ARG_FILTER ∈ args)⟩ := by
  have hh := mem_flagsOf_of_flag ARG_HELP args (by decide)
  have hf := mem_flagsOf_of_flag ARG_FILTER args (by decide)
  rw [parsedConfig_eq, applyFlags_eq, foldl_logStep_flagsOf, foldl_overrideStep_flagsOf]
  simp [hh, hf, Config.init]

/-- C9 (counterexample): `-v -q` is a reordering of the flags of `-q -v`, and the
two argument lists end the parsing pass with different values of `logType`;
likewise `-frag -vert` and `-vert -frag` end it with different overrides.  In
both pairs the value is the one of the later token. -/
theorem flag_order_changes_config :
    (flagsOf ["-q".toList, "-v".toList]).Perm (flagsOf ["-v".toList, "-q".toList]) ∧
    parsedConfig ["-q".toList, "-v".toList] = some ⟨.LT_VERBOSE, -1, false⟩ ∧
    parsedConfig ["-v".toList, "-q".toList] = some ⟨.LT_QUIET, -1, false⟩ ∧
    parsedConfig ["-q".toList, "-v".toList] ≠ parsedConfig ["-v".toList, "-q".toList] ∧
    (flagsOf ["-vert".toList, "-frag".toList]).Perm (flagsOf ["-frag".toList, "-vert".toList]) ∧
    parsedConfig ["-vert".toList, "-frag".toList] =
      some ⟨.LT_DEFAULT, GL_FRAGMENT_SHADER, false⟩ ∧
    parsedConfig ["-frag".toList, "-vert".toList] =
      some ⟨.LT_DEFAULT, GL_VERTEX_SHADER, false⟩ ∧
    parsedConfig ["-vert".toList, "-frag".toList] ≠
      parsedConfig ["-frag".toList, "-vert".toList] := by
  refine ⟨?_, by decide, by decide, by decide, ?_, by decide, by decide, by decide⟩
  · have h1 : flagsOf ["-q".toList, "-v".toList] = ["-q".toList, "-v".toList] := by decide
    have h2 : flagsOf ["-v".toList, "-q".toList] = ["-v".toList, "-q".toList] := by decide
    rw [h1, h2]
    exact List.Perm.swap _ _ _
  · have h1 : flagsOf ["-vert".toList, "-frag".toList] = ["-vert".toList, "-frag".toList] := by
      decide
    have h2 : flagsOf ["-frag".toList, "-vert".toList] = ["-frag".toList, "-vert".toList] := by
      decide
    rw [h1, h2]
    exact List.Perm.swap _ _ _

/-- C9 (amended): a reordering of the flag tokens that keeps the order of the
verbosity flags `-q`, `-v` among themselves and the order of the stage flags
`-vert`, `-frag` among themselves yields the same configuration after the
argument-parsing pass (and the same `-h` exit, when `-h` is among the flags).
The later token wins: the pass ends in the `-h` exit iff `-h` is among the
arguments, and otherwise `logType` is the value of the last `-q` or `-v` of the
list (quiet for `-q`, verbose for `-v`, the default when there is none), the
override is the value of the last `-vert` or `-frag` (vertex for `-vert`,
fragment for `-frag`, unset when there is none), and `filterFilenames` is set
iff `-f` is among the arguments. -/
theorem flag_order_insensitive_up_to_last_wins (args : List CStr) :
    (∀ args2 : List CStr, (flagsOf args).Perm (flagsOf args2) →
      (flagsOf args).filter isVerbosityFlag = (flagsOf args2).filter isVerbosityFlag →
      (flagsOf args).filter isStageFlag = (flagsOf args2).filter isStageFlag →
      parsedConfig args = parsedConfig args2) ∧
    (parsedConfig args = none ↔ "-h".toList ∈ args) ∧
    (∀ cfg, parsedConfig args = some cfg →
      (∀ (pre : List CStr) (a : CStr) (post : List CStr), args = pre ++ a :: post →
        (∀ b ∈ post, b ≠ "-q".toList ∧ b ≠ "-v".toList) →
        (a = "-q".toList → cfg.logType = .LT_QUIET) ∧
        (a = "-v".toList → cfg.logType = .LT_VERBOSE)) ∧
      ((∀ b ∈ args, b ≠ "-q".toList ∧ b ≠ "-v".toList) → cfg.logType = .LT_DEFAULT) ∧
      (∀ (pre : List CStr) (a : CStr) (post : List CStr), args = pre ++ a :: post →
        (∀ b ∈ post, b ≠ "-vert".toList ∧ b ≠ "-frag".toList) →
        (a = "-vert".toList → cfg.typeOverride = GL_VERTEX_SHADER) ∧
        (a = "-frag".toList → cfg.typeOverride = GL_FRAGMENT_SHADER)) ∧
      ((∀ b ∈ args, b ≠ "-vert".toList ∧ b ≠ "-frag".toList) → cfg.typeOverride = -1) ∧
      (cfg.filterFilenames = true ↔ "-f".toList ∈ args)) := by
  refine ⟨fun args2 hp hv hs => parsedConfig_perm args args2 hp hv hs, ?_, ?_⟩
  · rw [parsedConfig_closed]
    by_cases hh : ARG_HELP ∈ args
    · simp only [hh, if_true, true_iff]
      exact hh
    · simp only [hh, if_false]
      constructor
      · intro h
        cases h
      · intro h
        exact absurd h hh
  · intro cfg hcfg
    rw [parsedConfig_closed] at hcfg
    by_cases hh : ARG_HELP ∈ args
    · rw [if_pos hh] at hcfg
      cases hcfg
    · rw [if_neg hh] at hcfg
      simp only [Option.some.injEq] at hcfg
      subst hcfg
      refine ⟨?_, ?_, ?_, ?_, ?_⟩
      · intro pre a post he hpost
        have hfold : args.foldl logStep .LT_DEFAULT =
            logStep (pre.foldl logStep .LT_DEFAULT) a := by
          rw [he, List.foldl_append, List.foldl_cons]
          exact foldl_logStep_none _ post hpost
        constructor
        · intro ha
          show args.foldl logStep .LT_DEFAULT = .LT_QUIET
          have ha2 : a = ARG_QUIET := ha
          rw [hfold, ha2]
          simp [logStep]
        · intro ha
          show args.foldl logStep .LT_DEFAULT = .LT_VERBOSE
          have ha2 : a = ARG_VERBOSE := ha
          have hne : ¬ ARG_VERBOSE = ARG_QUIET := by decide
          rw [hfold, ha2]
          simp [logStep, hne]
      · intro hnone
        exact foldl_logStep_none _ args hnone
      · intro pre a post he hpost
        have hfold : args.foldl overrideStep (-1) =
            overrideStep (pre.foldl overrideStep (-1)) a := by
          rw [he, List.foldl_append, List.foldl_cons]
          exact foldl_overrideStep_none _ post hpost
        constructor
        · intro ha
          show args.foldl overrideStep (-1) = GL_VERTEX_SHADER
          have ha2 : a = ARG_ALL_VERTS := ha
          rw [hfold, ha2]
          simp [overrideStep]
        · intro ha
          show args.foldl overrideStep (-1) = GL_FRAGMENT_SHADER
          have ha2 : a = ARG_ALL_FRAGS := ha
          have hne : ¬ ARG_ALL_FRAGS = ARG_ALL_VERTS := by decide
          rw [hfold, ha2]
          simp [overrideStep, hne]
      · intro hnone
        exact foldl_overrideStep_none _ args hnone
      · show decide (ARG_FILTER ∈ args) = true ↔ ARG_FILTER ∈ args
        simp

/-- Witness of C9 (amended): `-q -f a.vert -vert` and `-vert a.vert -f -q` give
the same configuration; in `-q a.vert -v -frag -vert` the later tokens `-v` and
`-vert` win. -/
theorem flag_order_insensitive_up_to_last_wins_witness :
    parsedConfig ["-q".toList, "-f".toList, "a.vert".toList, "-vert".toList] =
      parsedConfig ["-vert".toList, "a.vert".toList, "-f".toList, "-q".toList] ∧
    ∃ cfg, parsedConfig
        ["-q".toList, "a.vert".toList, "-v".toList, "-frag".toList, "-vert".toList] =
        some cfg ∧
      cfg.logType = .LT_VERBOSE ∧ cfg.typeOverride = GL_VERTEX_SHADER :=
  ⟨(flag_order_insensitive_up_to_last_wins
      ["-q".toList, "-f".toList, "a.vert".toList, "-vert".toList]).1
      ["-vert".toList, "a.vert".toList, "-f".toList, "-q".toList]
      (by decide) (by decide) (by decide),
    ⟨.LT_VERBOSE, GL_VERTEX_SHADER, false⟩, by decide,
    (((flag_order_insensitive_up_to_last_wins
      ["-q".toList, "a.vert".toList, "-v".toList, "-frag".toList, "-vert".toList]).2.2
      ⟨.LT_VERBOSE, GL_VERTEX_SHADER, false⟩ (by decide)).1
      ["-q".toList, "a.vert".toList] "-v".toList ["-frag".toList, "-vert".toList] rfl
      (by decide)).2 rfl,
    (((flag_order_insensitive_up_to_last_wins
      ["-q".toList, "a.vert".toList, "-v".toList, "-frag".toList, "-vert".toList]).2.2
      ⟨.LT_VERBOSE, GL_VERTEX_SHADER, false⟩ (by decide)).2.2.1
      ["-q".toList, "a.vert".toList, "-v".toList, "-frag".toList] "-vert".toList [] rfl
      (by decide)).1 rfl⟩

/-! ## Reporting -/

theorem reported_append (w : World) (k : Nat) (a b : List Ev) (ha : reported w k a)
    (hb : reported w (k + (compileCalls a).length) b) : reported w k (a ++ b) := by
  induction a generalizing k with
  | nil => simpa [compileCalls] using hb
  | cons e rest ih =>
    cases e with
    | compile src ty =>
      simp only [reported, List.cons_append] at ha ⊢
      refine ⟨?_, ?_⟩
      · intro hrej
        obtain ⟨name, post, hpost⟩ := ha.1 hrej
        exact ⟨name, post ++ b, by simp [hpost]⟩
      · apply ih (k + 1) ha.2
        have : k + (compileCalls (Ev.compile src ty :: rest)).length =
            k + 1 + (compileCalls rest).length := by
          simp [compileCalls]; omega
        rw [← this]; exact hb
    | createContext =>
      simp only [reported, List.cons_append] at ha ⊢
      exact ih k ha (by simpa [compileCalls] using hb)
    | destroyContext =>
      simp only [reported, List.cons_append] at ha ⊢
      exact ih k ha (by simpa [compileCalls] using hb)
    | fopen p =>
      simp only [reported, List.cons_append] at ha ⊢
      exact ih k ha (by simpa [compileCalls] using hb)
    | print o =>
      simp only [reported, List.cons_append] at ha ⊢
      exact ih k ha (by simpa [compileCalls] using hb)

theorem reported_split (w : World) (k : Nat) (pre post : List Ev) (src : CStr) (ty : Int)
    (h : reported w k (pre ++ .compile src ty :: post))
    (hrej : (w.driver (k + (compileCalls pre).length) src ty).status = GL_FALSE) :
    ∃ name rest, post =
      .print (.failed name) ::
        .print (.diag (some (w.driver (k + (compileCalls pre).length) src ty).infoLog)) ::
        rest := by
  induction pre generalizing k with
  | nil =>
    simp only [List.nil_append, reported] at h
    simp only [compileCalls, List.filterMap_nil, List.length_nil, Nat.add_zero] at hrej ⊢
    exact h.1 hrej
  | cons e rest ih =>
    cases e with
    | compile s t =>
      simp only [reported, List.cons_append] at h
      have e1 : k + (compileCalls (Ev.compile s t :: rest)).length =
          k + 1 + (compileCalls rest).length := by
        simp [compileCalls]; omega
      rw [e1] at hrej ⊢
      exact ih (k + 1) h.2 hrej
    | createContext =>
      simp only [reported, List.cons_append] at h
      have e1 : compileCalls (Ev.createContext :: rest) = compileCalls rest := by
        simp [compileCalls]
      rw [e1] at hrej ⊢
      exact ih k h hrej
    | destroyContext =>
      simp only [reported, List.cons_append] at h
      have e1 : compileCalls (Ev.destroyContext :: rest) = compileCalls rest := by
        simp [compileCalls]
      rw [e1] at hrej ⊢
      exact ih k h hrej
    | fopen p =>
      simp only [reported, List.cons_append] at h
      have e1 : compileCalls (Ev.fopen p :: rest) = compileCalls rest := by
        simp [compileCalls]
      rw [e1] at hrej ⊢
      exact ih k h hrej
    | print o =>
      simp only [reported, List.cons_append] at h
      have e1 : compileCalls (Ev.print o :: rest) = compileCalls rest := by
        simp [compileCalls]
      rw [e1] at hrej ⊢
      exact ih k h hrej

/-- Events without a compile call and without a PASSED line. -/
theorem LOG_DEBUG_plain (cfg : Config) (o : Out) (ho : ∀ name, o ≠ .passed name) :
    (∀ src ty, Ev.compile src ty ∉ LOG_DEBUG cfg o) ∧
    (∀ name, Ev.print (.passed name) ∉ LOG_DEBUG cfg o) := by
  unfold LOG_DEBUG
  split_ifs
  · refine ⟨by simp, ?_⟩
    intro name hm
    simp only [List.mem_singleton, Ev.print.injEq] at hm
    exact ho name hm.symm
  · simp

theorem reported_of_no_compile (w : World) (k : Nat) (a : List Ev)
    (h : ∀ src ty, Ev.compile src ty ∉ a) : reported w k a ∧ compileCalls a = [] := by
  induction a with
  | nil => simp [reported, compileCalls]
  | cons e rest ih =>
    have hrest : ∀ src ty, Ev.compile src ty ∉ rest := fun src ty hm =>
      h src ty (List.mem_cons_of_mem _ hm)
    obtain ⟨h1, h2⟩ := ih hrest
    cases e with
    | compile src ty => exact absurd (List.mem_cons_self _ _) (h src ty)
    | createContext => exact ⟨by simpa [reported] using h1, by simpa [compileCalls] using h2⟩
    | destroyContext => exact ⟨by simpa [reported] using h1, by simpa [compileCalls] using h2⟩
    | fopen p => exact ⟨by simpa [reported] using h1, by simpa [compileCalls] using h2⟩
    | print o => exact ⟨by simpa [reported] using h1, by simpa [compileCalls] using h2⟩

/-- The three shapes of a call of `processFile`: no compile call; a rejected
compile call followed by the FAILED line and the diagnostic; an accepted compile
call followed by the PASSED line under `LOG_INFO`. -/
theorem processFile_shape (cfg : Config) (w : World) (k : Nat) (f : CStr) :
    (∃ a r, (∀ src ty, Ev.compile src ty ∉ a) ∧ (∀ name, Ev.print (.passed name) ∉ a) ∧
      processFile cfg w k f = { events := a, calls := k, result := r }) ∨
    (∃ a src ty, (∀ s t, Ev.compile s t ∉ a) ∧ (∀ name, Ev.print (.passed name) ∉ a) ∧
      (w.driver k src ty).status = GL_FALSE ∧
      processFile cfg w k f =
        { events := a ++ [.compile src ty, .print (.failed f),
            .print (.diag (some (w.driver k src ty).infoLog))],
          calls := k + 1, result := .ret 2 }) ∨
    (∃ a src ty, (∀ s t, Ev.compile s t ∉ a) ∧ (∀ name, Ev.print (.passed name) ∉ a) ∧
      (w.driver k src ty).status ≠ GL_FALSE ∧
      processFile cfg w k f =
        { events := a ++ [.compile src ty] ++ LOG_INFO cfg (.passed f),
          calls := k + 1, result := .ret 0 }) := by
  have d1 := LOG_DEBUG_plain cfg (.testing f) (by simp)
  have d2 := LOG_DEBUG_plain cfg (.compiling f) (by simp)
  have d3 := fun t => LOG_DEBUG_plain cfg (.usingType t) (by simp)
  by_cases ht : getType cfg f = -1
  · by_cases hfl : cfg.filterFilenames = true
    · left
      exact ⟨_, _, d1.1, d1.2, processFile_skipped cfg w k f ht hfl⟩
    · left
      have hfl2 : cfg.filterFilenames = false := by simpa using hfl
      refine ⟨_, _, ?_, ?_, processFile_typeError cfg w k f ht hfl2⟩
      · intro src ty hm
        rcases List.mem_append.1 hm with h | h
        · exact d1.1 src ty h
        · simp at h
      · intro name hm
        rcases List.mem_append.1 hm with h | h
        · exact d1.2 name h
        · simp at h
  · cases hr : readFile w f with
    | null =>
      left
      refine ⟨LOG_DEBUG cfg (.testing f) ++ [.fopen f, .print (.openError f)], .ret 1, ?_, ?_, ?_⟩
      · intro src ty hm
        rcases List.mem_append.1 hm with h | h
        · exact d1.1 src ty h
        · simp at h
      · intro name hm
        rcases List.mem_append.1 hm with h | h
        · exact d1.2 name h
        · simp at h
      · simp [processFile, ht, hr, LOG_ERROR]
    | assertFail =>
      left
      refine ⟨LOG_DEBUG cfg (.testing f) ++ [.fopen f], .abort, ?_, ?_, ?_⟩
      · intro src ty hm
        rcases List.mem_append.1 hm with h | h
        · exact d1.1 src ty h
        · simp at h
      · intro name hm
        rcases List.mem_append.1 hm with h | h
        · exact d1.2 name h
        · simp at h
      · simp [processFile, ht, hr]
    | ok source =>
      right
      have hA : (∀ s t, Ev.compile s t ∉ LOG_DEBUG cfg (.testing f) ++ [.fopen f] ++
            LOG_DEBUG cfg (.compiling f) ++
            LOG_DEBUG cfg (.usingType (submittedType cfg (getType cfg f)))) ∧
          (∀ name, Ev.print (.passed name) ∉ LOG_DEBUG cfg (.testing f) ++ [.fopen f] ++
            LOG_DEBUG cfg (.compiling f) ++
            LOG_DEBUG cfg (.usingType (submittedType cfg (getType cfg f)))) := by
        constructor
        · intro s t hm
          simp only [List.mem_append, List.mem_singleton] at hm
          rcases hm with ((h | h) | h) | h
          · exact d1.1 s t h
          · cases h
          · exact d2.1 s t h
          · exact (d3 _).1 s t h
        · intro name hm
          simp only [List.mem_append, List.mem_singleton] at hm
          rcases hm with ((h | h) | h) | h
          · exact d1.2 name h
          · cases h
          · exact d2.2 name h
          · exact (d3 _).2 name h
      by_cases hrej : (w.driver k (cstrOf source) (submittedType cfg (getType cfg f))).status =
          GL_FALSE
      · left
        refine ⟨_, cstrOf source, submittedType cfg (getType cfg f), hA.1, hA.2, hrej, ?_⟩
        simp [processFile, ht, hr, compileShader_eq, hrej, LOG_ERROR]
      · right
        refine ⟨_, cstrOf source, submittedType cfg (getType cfg f), hA.1, hA.2, hrej, ?_⟩
        simp [processFile, ht, hr, compileShader_eq, hrej]

theorem processFile_reported (cfg : Config) (w : World) (k : Nat) (f : CStr) :
    reported w k (processFile cfg w k f).events ∧
    (processFile cfg w k f).calls = k + (compileCalls (processFile cfg w k f).events).length := by
  rcases processFile_shape cfg w k f with ⟨a, r, h1, _, he⟩ | ⟨a, src, ty, h1, _, hrej, he⟩ |
    ⟨a, src, ty, h1, _, hacc, he⟩
  · obtain ⟨r1, r2⟩ := reported_of_no_compile w k a h1
    rw [he]
    exact ⟨r1, by simp [r2]⟩
  · obtain ⟨r1, r2⟩ := reported_of_no_compile w k a h1
    rw [he]
    refine ⟨reported_append w k _ _ r1 ?_, ?_⟩
    · rw [r2]
      simp [reported]
    · rw [compileCalls_append, r2]
      rfl
  · obtain ⟨r1, r2⟩ := reported_of_no_compile w k a h1
    rw [he]
    have hi : compileCalls (LOG_INFO cfg (.passed f)) = [] := compileCalls_LOG_INFO cfg _
    have hi2 : reported w (k + 1) (LOG_INFO cfg (.passed f)) := by
      unfold LOG_INFO
      split_ifs <;> simp [reported]
    refine ⟨?_, ?_⟩
    · rw [List.append_assoc]
      apply reported_append w k _ _ r1
      rw [r2]
      simp only [List.length_nil, Nat.add_zero, List.singleton_append, reported]
      exact ⟨fun h => absurd h hacc, hi2⟩
    · rw [compileCalls_append, compileCalls_append, r2, hi]
      rfl

theorem processFile_no_passed (cfg : Config) (w : World) (k : Nat) (f : CStr)
    (hq : cfg.logType = .LT_QUIET) (name : CStr) :
    Ev.print (.passed name) ∉ (processFile cfg w k f).events := by
  rcases processFile_shape cfg w k f with ⟨a, r, _, h2, he⟩ | ⟨a, src, ty, _, h2, _, he⟩ |
    ⟨a, src, ty, _, h2, _, he⟩
  · rw [he]
    exact h2 name
  · rw [he]
    intro hm
    rcases List.mem_append.1 hm with h | h
    · exact h2 name h
    · simp at h
  · rw [he]
    intro hm
    simp only [LOG_INFO, hq, LogType.val, gt_iff_lt, Nat.lt_irrefl, if_false, List.append_nil,
      List.mem_append, List.mem_singleton] at hm
    rcases hm with h | h
    · exact h2 name h
    · cases h

/-- What holds of the events of the second loop of `main`: rejected compile
calls are reported, the call count is kept, and a quiet run has no PASSED line. -/
theorem fileLoop_invariants (cfg : Config) (w : World) (k : Nat) (rv : Int)
    (args : List CStr) :
    reported w k (fileLoop cfg w k rv args).events ∧
    (fileLoop cfg w k rv args).calls =
      k + (compileCalls (fileLoop cfg w k rv args).events).length ∧
    (cfg.logType = .LT_QUIET →
      ∀ name, Ev.print (.passed name) ∉ (fileLoop cfg w k rv args).events) := by
  induction args generalizing k rv with
  | nil => simp [fileLoop, reported, compileCalls]
  | cons a rest ih =>
    by_cases ha : isArgument a = true
    · simp only [fileLoop, ha, if_true]
      exact ih k rv
    · have ha2 : isArgument a = false := by simpa using ha
      obtain ⟨p1, p2⟩ := processFile_reported cfg w k a
      have p3 := processFile_no_passed cfg w k a
      have step : ∀ rv1 : Int,
          reported w k ((processFile cfg w k a).events ++
            (fileLoop cfg w (processFile cfg w k a).calls rv1 rest).events) ∧
          (fileLoop cfg w (processFile cfg w k a).calls rv1 rest).calls =
            k + (compileCalls ((processFile cfg w k a).events ++
              (fileLoop cfg w (processFile cfg w k a).calls rv1 rest).events)).length ∧
          (cfg.logType = .LT_QUIET → ∀ name, Ev.print (.passed name) ∉
            (processFile cfg w k a).events ++
              (fileLoop cfg w (processFile cfg w k a).calls rv1 rest).events) := by
        intro rv1
        obtain ⟨i1, i2, i3⟩ := ih (processFile cfg w k a).calls rv1
        refine ⟨reported_append w k _ _ p1 (by rw [← p2]; exact i1), ?_, ?_⟩
        · rw [i2, compileCalls_append, List.length_append]
          omega
        · intro hq name hm
          rcases List.mem_append.1 hm with h | h
          · exact p3 hq name h
          · exact i3 hq name h
      simp only [fileLoop, ha2]
      cases hr : (processFile cfg w k a).result with
      | abort =>
        refine ⟨p1, p2, fun hq name => p3 hq name⟩
      | ret code =>
        by_cases h2 : code = 2
        · simpa [h2] using step 1
        · by_cases h1 : code = 1
          · have h12 : ¬ ((1 : Int) = 2) := by decide
            simp only [h1, h12, if_true, if_false, Bool.false_eq_true]
            refine ⟨reported_append w k _ _ p1 (by simp [reported]), ?_, ?_⟩
            · rw [compileCalls_append]
              simpa [compileCalls] using p2
            · intro hq name hm
              rcases List.mem_append.1 hm with h | h
              · exact p3 hq name h
              · simp at h
          · simpa [h2, h1] using step rv

theorem readLoop_length (input : List Char) (b : Buffer) :
    (readLoop input b).length = b.length + input.length := by
  induction input generalizing b with
  | nil => simp [readLoop]
  | cons c rest ih =>
    have hg : (b.grow INITIAL_SIZE).length = b.length := by
      unfold Buffer.grow
      split_ifs <;> rfl
    simp only [readLoop, ih, Buffer.push, hg, List.length_cons]
    omega

theorem readStdin_length (input : List Char) : (readStdin input).length = input.length + 1 := by
  have hg : ((readLoop input Buffer.init).grow 1).length = (readLoop input Buffer.init).length := by
    unfold Buffer.grow
    split_ifs <;> rfl
  unfold readStdin
  simp only [Buffer.push]
  rw [hg, readLoop_length]
  simp [Buffer.init]

/-- The three shapes of a call of `processStdinInput`: a return without any
event; a rejected compile call followed by the FAILED line, the diagnostic,
`destroyContext` and `exit(1)`; an accepted compile call followed by the PASSED
line under `LOG_INFO`, `destroyContext` and `exit(0)`. -/
theorem processStdinInput_shape (cfg : Config) (w : World) (k : Nat) :
    (w.stdin = [] ∧ processStdinInput cfg w k = ([], .returned)) ∨
    (∃ a, (∀ s t, Ev.compile s t ∉ a) ∧ (∀ name, Ev.print (.passed name) ∉ a) ∧
      (w.driver k (cstrOfCells (readStdin w.stdin).cells)
        (submittedType cfg GL_VERTEX_SHADER)).status = GL_FALSE ∧
      processStdinInput cfg w k =
        (a ++ [.compile (cstrOfCells (readStdin w.stdin).cells)
            (submittedType cfg GL_VERTEX_SHADER),
          .print (.failed STDIN_NAME),
          .print (.diag (some (w.driver k (cstrOfCells (readStdin w.stdin).cells)
            (submittedType cfg GL_VERTEX_SHADER)).infoLog)),
          .destroyContext], .exited 1)) ∨
    (∃ a, (∀ s t, Ev.compile s t ∉ a) ∧ (∀ name, Ev.print (.passed name) ∉ a) ∧
      (w.driver k (cstrOfCells (readStdin w.stdin).cells)
        (submittedType cfg GL_VERTEX_SHADER)).status ≠ GL_FALSE ∧
      processStdinInput cfg w k =
        (a ++ [.compile (cstrOfCells (readStdin w.stdin).cells)
            (submittedType cfg GL_VERTEX_SHADER)] ++
          LOG_INFO cfg (.passed STDIN_NAME) ++ [.destroyContext], .exited 0)) := by
  by_cases hin : w.stdin = []
  · left
    refine ⟨hin, ?_⟩
    have hl := readStdin_length w.stdin
    simp only [hin, List.length_nil, Nat.zero_add] at hl
    simp only [processStdinInput, hin, hl]
    simp
  · right
    have hl := readStdin_length w.stdin
    have hpos : 0 < w.stdin.length := List.length_pos.2 hin
    have hgt : ¬ (readStdin w.stdin).length ≤ 1 := by omega
    have hty : submittedType cfg (if cfg.typeOverride != -1 then cfg.typeOverride
        else GL_VERTEX_SHADER) = submittedType cfg GL_VERTEX_SHADER := by
      unfold submittedType
      by_cases h : cfg.typeOverride = -1 <;> simp [h]
    have d1 := LOG_DEBUG_plain cfg
      (.allocated (readStdin w.stdin).maxSize (readStdin w.stdin).length) (by simp)
    have d2 := LOG_DEBUG_plain cfg (.compiling STDIN_NAME) (by simp)
    have d3 := LOG_DEBUG_plain cfg (.usingType (submittedType cfg GL_VERTEX_SHADER)) (by simp)
    have hA : (∀ s t, Ev.compile s t ∉
          LOG_DEBUG cfg (.allocated (readStdin w.stdin).maxSize (readStdin w.stdin).length) ++
          LOG_DEBUG cfg (.compiling STDIN_NAME) ++
          LOG_DEBUG cfg (.usingType (submittedType cfg GL_VERTEX_SHADER))) ∧
        (∀ name, Ev.print (.passed name) ∉
          LOG_DEBUG cfg (.allocated (readStdin w.stdin).maxSize (readStdin w.stdin).length) ++
          LOG_DEBUG cfg (.compiling STDIN_NAME) ++
          LOG_DEBUG cfg (.usingType (submittedType cfg GL_VERTEX_SHADER))) := by
      constructor
      · intro s t hm
        simp only [List.mem_append] at hm
        rcases hm with (h | h) | h
        · exact d1.1 s t h
        · exact d2.1 s t h
        · exact d3.1 s t h
      · intro name hm
        simp only [List.mem_append] at hm
        rcases hm with (h | h) | h
        · exact d1.2 name h
        · exact d2.2 name h
        · exact d3.2 name h
    by_cases hrej : (w.driver k (cstrOfCells (readStdin w.stdin).cells)
        (submittedType cfg GL_VERTEX_SHADER)).status = GL_FALSE
    · left
      refine ⟨_, hA.1, hA.2, hrej, ?_⟩
      simp only [processStdinInput, hgt, if_false, compileShader_eq, hty, hrej, if_true]
      simp [LOG_ERROR]
    · right
      refine ⟨_, hA.1, hA.2, hrej, ?_⟩
      simp only [processStdinInput, hgt, if_false, compileShader_eq, hty, hrej, if_true]
      simp

theorem processStdinInput_invariants (cfg : Config) (w : World) (k : Nat) :
    reported w k (processStdinInput cfg w k).1 ∧
    (cfg.logType = .LT_QUIET →
      ∀ name, Ev.print (.passed name) ∉ (processStdinInput cfg w k).1) := by
  rcases processStdinInput_shape cfg w k with ⟨_, he⟩ | ⟨a, h1, h2, hrej, he⟩ |
    ⟨a, h1, h2, hacc, he⟩
  · rw [he]
    simp [reported]
  · obtain ⟨r1, r2⟩ := reported_of_no_compile w k a h1
    rw [he]
    refine ⟨reported_append w k _ _ r1 (by rw [r2]; simp [reported]), ?_⟩
    intro _ name hm
    rcases List.mem_append.1 hm with h | h
    · exact h2 name h
    · simp at h
  · obtain ⟨r1, r2⟩ := reported_of_no_compile w k a h1
    rw [he]
    have hi2 : reported w (k + 1) (LOG_INFO cfg (.passed STDIN_NAME) ++ [.destroyContext]) := by
      unfold LOG_INFO
      split_ifs <;> simp [reported]
    refine ⟨?_, ?_⟩
    · simp only [List.append_assoc]
      apply reported_append w k _ _ r1
      rw [r2]
      simp only [List.length_nil, Nat.add_zero, List.singleton_append, reported]
      exact ⟨fun h => absurd h hacc, hi2⟩
    · intro hq name hm
      simp only [LOG_INFO, hq, LogType.val, gt_iff_lt, Nat.lt_irrefl, if_false, List.append_nil,
        List.mem_append, List.mem_singleton] at hm
      rcases hm with (h | h) | h
      · exact h2 name h
      · cases h
      · cases h

/-- The events of `main` after the second loop. -/
theorem afterParse_tail (w : World) (cfg : Config) (n : Nat) (args : List CStr) :
    ∃ rest, (afterParse w (.done cfg n) args).trace =
        .createContext :: ((fileLoop cfg w 0 0 args).events ++ rest) ∧
      (rest = [] ∨ rest = [.print .usage] ∨ rest = [.destroyContext] ∨
        rest = (processStdinInput cfg w (fileLoop cfg w 0 0 args).calls).1 ∨
        rest = (processStdinInput cfg w (fileLoop cfg w 0 0 args).calls).1 ++
          [.destroyContext]) := by
  simp only [afterParse]
  cases hres : (fileLoop cfg w 0 0 args).result with
  | abort => exact ⟨[], by simp, Or.inl rfl⟩
  | ret code => exact ⟨[], by simp, Or.inl rfl⟩
  | done rv =>
    by_cases htty : w.isatty = true
    · by_cases hn : n < 1
      · exact ⟨[.print .usage], by simp [htty, hn], Or.inr (Or.inl rfl)⟩
      · exact ⟨[.destroyContext], by simp [htty, hn], Or.inr (Or.inr (Or.inl rfl))⟩
    · have htty2 : w.isatty = false := by simpa using htty
      rcases hs : processStdinInput cfg w (fileLoop cfg w 0 0 args).calls with ⟨evs, e⟩
      cases e with
      | returned =>
        exact ⟨evs ++ [.destroyContext], by simp [htty2],
          Or.inr (Or.inr (Or.inr (Or.inr rfl)))⟩
      | exited code =>
        exact ⟨evs, by simp [htty2], Or.inr (Or.inr (Or.inr (Or.inl rfl)))⟩

theorem main_reported (w : World) (args : List CStr) : reported w 0 (main w args).trace := by
  rw [main_eq_afterParse]
  cases hp : parseArgs Config.init 0 args with
  | exit out code =>
    simp only [afterParse]
    refine (reported_of_no_compile w 0 _ ?_).1
    intro src ty hm
    simp at hm
  | done cfg n =>
    obtain ⟨rest, ht, hrest⟩ := afterParse_tail w cfg n args
    obtain ⟨i1, i2, _⟩ := fileLoop_invariants cfg w 0 0 args
    obtain ⟨s1, _⟩ := processStdinInput_invariants cfg w (fileLoop cfg w 0 0 args).calls
    rw [ht]
    simp only [reported]
    apply reported_append w 0 _ _ i1
    rw [← i2]
    rcases hrest with h | h | h | h | h
    · rw [h]; simp [reported]
    · rw [h]; simp [reported]
    · rw [h]; simp [reported]
    · rw [h]; exact s1
    · rw [h]; exact reported_append w _ _ _ s1 (by simp [reported])

theorem main_no_passed (w : World) (args : List CStr) (cfg : Config)
    (hcfg : parsedConfig args = some cfg) (hq : cfg.logType = .LT_QUIET) (name : CStr) :
    Ev.print (.passed name) ∉ (main w args).trace := by
  obtain ⟨n, hp⟩ := parseArgs_of_parsedConfig args cfg hcfg
  rw [main_eq_afterParse, hp]
  obtain ⟨rest, ht, hrest⟩ := afterParse_tail w cfg n args
  obtain ⟨_, _, i3⟩ := fileLoop_invariants cfg w 0 0 args
  obtain ⟨_, s2⟩ := processStdinInput_invariants cfg w (fileLoop cfg w 0 0 args).calls
  rw [ht]
  intro hm
  simp only [List.mem_cons, List.mem_append] at hm
  rcases hm with h | h | h
  · cases h
  · exact i3 hq name h
  · rcases hrest with e | e | e | e | e
    · rw [e] at h; simp at h
    · rw [e] at h; simp at h
    · rw [e] at h; simp at h
    · rw [e] at h; exact s2 hq name h
    · rw [e] at h
      rcases List.mem_append.1 h with h | h
      · exact s2 hq name h
      · simp at h

theorem mem_stdout_iff (o : Out) (tr : List Ev) : o ∈ stdout tr ↔ Ev.print o ∈ tr := by
  unfold stdout
  rw [List.mem_filterMap]
  constructor
  · rintro ⟨e, he, h⟩
    cases e <;> simp_all
  · intro h
    exact ⟨_, h, rfl⟩

/-- C10: a run whose configuration after the parsing pass has `logType` quiet
prints no PASSED line, neither for a file nor for stdin; and in every run,
whatever the verbosity, each compile call the driver rejects (the call number
is the count of compile calls before it) is directly followed by a FAILED line
and the diagnostic line with the info log of that call.  The FAILED line names
the file in `processFile` and `stdin` in `processStdinInput`, under every
configuration. -/
theorem quiet_suppresses_passed_never_failed (w : World) (args : List CStr) :
    (∀ cfg, parsedConfig args = some cfg → cfg.logType = .LT_QUIET →
      ∀ name, Out.passed name ∉ stdout (main w args).trace) ∧
    (∀ (pre post : List Ev) (src : CStr) (ty : Int),
      (main w args).trace = pre ++ .compile src ty :: post →
      (w.driver (compileCalls pre).length src ty).status = GL_FALSE →
      ∃ name rest, post =
        .print (.failed name) ::
          .print (.diag (some (w.driver (compileCalls pre).length src ty).infoLog)) ::
          rest) ∧
    (∀ (cfg : Config) (k : Nat) (f : CStr) (content : List Char),
      getType cfg f ≠ -1 → w.files f = some content → NUL ∉ content →
      (w.driver k content (submittedType cfg (getType cfg f))).status = GL_FALSE →
      [Ev.print (.failed f),
        .print (.diag (some (w.driver k content (submittedType cfg (getType cfg f))).infoLog))]
        <:+ (processFile cfg w k f).events) ∧
    (∀ (cfg : Config) (k : Nat), w.stdin ≠ [] →
      (w.driver k (cstrOfCells (readStdin w.stdin).cells)
        (submittedType cfg GL_VERTEX_SHADER)).status = GL_FALSE →
      [Ev.print (.failed "stdin".toList),
        .print (.diag (some (w.driver k (cstrOfCells (readStdin w.stdin).cells)
          (submittedType cfg GL_VERTEX_SHADER)).infoLog)),
        .destroyContext] <:+ (processStdinInput cfg w k).1) := by
  refine ⟨?_, ?_, ?_, ?_⟩
  · intro cfg hcfg hq name hm
    exact main_no_passed w args cfg hcfg hq name ((mem_stdout_iff _ _).1 hm)
  · intro pre post src ty htr hrej
    have h := main_reported w args
    rw [htr] at h
    have := reported_split w 0 pre post src ty h (by simpa using hrej)
    simpa using this
  · intro cfg k f content ht hfile hn hrej
    rw [processFile_rejected cfg w k f content ht hfile hn hrej]
    exact ⟨LOG_DEBUG cfg (.testing f) ++ [.fopen f] ++ LOG_DEBUG cfg (.compiling f) ++
      LOG_DEBUG cfg (.usingType (submittedType cfg (getType cfg f))) ++
      [.compile content (submittedType cfg (getType cfg f))], by simp⟩
  · intro cfg k hin hrej
    rcases processStdinInput_shape cfg w k with ⟨h0, _⟩ | ⟨a, _, _, _, he⟩ | ⟨a, _, _, hacc, _⟩
    · exact absurd h0 hin
    · rw [he]
      exact ⟨a ++ [.compile (cstrOfCells (readStdin w.stdin).cells)
        (submittedType cfg GL_VERTEX_SHADER)], by simp [STDIN_NAME]⟩
    · exact absurd hrej hacc

/-- Witness of C10: `-q a.vert b.frag` prints only the FAILED line of `b.frag` and
its diagnostic. -/
theorem quiet_suppresses_passed_never_failed_witness :
    Out.passed "a.vert".toList ∉
      stdout (main terminalWorld ["-q".toList, "a.vert".toList, "b.frag".toList]).trace ∧
    ∃ name rest, [Ev.print (.failed "b.frag".toList),
        .print (.diag (some "0:1(11): error: syntax error\n".toList)), .destroyContext] =
      .print (.failed name) ::
        .print (.diag (some (terminalWorld.driver 1 "void main({}".toList
          GL_FRAGMENT_SHADER).infoLog)) :: rest :=
  ⟨(quiet_suppresses_passed_never_failed terminalWorld
      ["-q".toList, "a.vert".toList, "b.frag".toList]).1
      ⟨.LT_QUIET, -1, false⟩ (by decide) rfl "a.vert".toList,
   (quiet_suppresses_passed_never_failed terminalWorld
      ["-q".toList, "a.vert".toList, "b.frag".toList]).2.1
      [.createContext, .fopen "a.vert".toList,
        .compile "void main(){}".toList GL_VERTEX_SHADER, .fopen "b.frag".toList]
      [.print (.failed "b.frag".toList),
        .print (.diag (some "0:1(11): error: syntax error\n".toList)), .destroyContext]
      "void main({}".toList GL_FRAGMENT_SHADER (by decide) (by decide)⟩

/-! ## Runs on files that all resolve and read -/

theorem flagsOf_of_no_flag (names : List CStr) (h : ∀ g ∈ names, isArgument g = false) :
    flagsOf names = [] ∧ filesOf names = names := by
  constructor
  · simp only [flagsOf, List.filter_eq_nil_iff]
    intro g hg
    simp [h g hg]
  · simp only [filesOf, List.filter_eq_self]
    intro g hg
    simp [h g hg]

theorem submittedType_init (t : Int) : submittedType Config.init t = t := by
  simp [submittedType, Config.init]

/-- The second loop on files the driver accepts, without flags: every file gives
its PASSED line and `retValue` is kept. -/
theorem fileLoop_all_accepted (w : World) (names : List CStr) (k : Nat) (rv : Int)
    (htype : ∀ g ∈ names, getType Config.init g ≠ -1)
    (hread : ∀ g ∈ names, ∃ content, w.files g = some content ∧ NUL ∉ content)
    (hacc : ∀ i g, names[i]? = some g → (fileReply w (k + i) g).status ≠ GL_FALSE) :
    (fileLoop Config.init w k rv names).result = .done rv ∧
    (fileLoop Config.init w k rv names).calls = k + names.length ∧
    stdout (fileLoop Config.init w k rv names).events = names.map Out.passed := by
  induction names generalizing k with
  | nil => simp [fileLoop, stdout]
  | cons g rest ih =>
    have hg : isArgument g = false :=
      not_isArgument_of_getType g (htype g (List.mem_cons_self _ _))
    obtain ⟨content, hfile, hn⟩ := hread g (List.mem_cons_self _ _)
    have ht := htype g (List.mem_cons_self _ _)
    have ha : (w.driver k content (submittedType Config.init (getType Config.init g))).status ≠
        GL_FALSE := by
      have := hacc 0 g (by simp)
      simpa [fileReply, hfile, submittedType_init] using this
    have hp := processFile_accepted Config.init w k g content ht hfile hn ha
    obtain ⟨i1, i2, i3⟩ := ih (k + 1)
      (fun g1 h1 => htype g1 (List.mem_cons_of_mem _ h1))
      (fun g1 h1 => hread g1 (List.mem_cons_of_mem _ h1))
      (fun i g1 h1 => by
        have := hacc (i + 1) g1 (by simpa using h1)
        rwa [show k + (i + 1) = k + 1 + i by omega] at this)
    simp only [fileLoop, hg, hp]
    have h02 : ¬ ((0 : Int) = 2) := by decide
    have h01 : ¬ ((0 : Int) = 1) := by decide
    simp only [h02, h01, if_false, Bool.false_eq_true]
    refine ⟨i1, ?_, ?_⟩
    · rw [i2, List.length_cons]
      omega
    · rw [stdout_append, i3]
      simp [stdout, LOG_DEBUG, LOG_INFO, Config.init, LogType.val]

/-- C4 (counterexample): `a.vert` is accepted and `b.frag` rejected, both resolve
and read, no flag is given; with a shader the driver accepts piped into
standard input the exit code is 0, and a report for stdin follows the two
reports of the files. -/
theorem one_failure_exit_zero_on_piped_stdin :
    (main pipedWorld ["a.vert".toList, "b.frag".toList]).outcome = .exit 0 ∧
    stdoutText (main pipedWorld ["a.vert".toList, "b.frag".toList]).trace =
      ("a.vert,PASSED\n" ++ "b.frag,FAILED\n" ++ "\t0:1(11): error: syntax error\n" ++
        "stdin,PASSED\n").toList := by
  decide

/-- C4 (amended): filenames that all resolve to a type and are read by `readFile`,
run without flags, where the driver rejects the file `bad` and accepts the files
before and after it, and standard input is a terminal or delivers no byte: the
exit code is 1 and standard output is exactly `<name>,PASSED` for each file
before `bad`, then `<bad>,FAILED` and the tab-indented info log, then
`<name>,PASSED` for each file after `bad`. -/
theorem one_failure_reports_in_order (w : World) (pre post : List CStr) (bad : CStr)
    (hstdin : w.isatty = true ∨ w.stdin = [])
    (htype : ∀ g ∈ pre ++ bad :: post, getType Config.init g ≠ -1)
    (hread : ∀ g ∈ pre ++ bad :: post, ∃ content, w.files g = some content ∧ NUL ∉ content)
    (hpre : ∀ i g, pre[i]? = some g → (fileReply w i g).status ≠ GL_FALSE)
    (hbad : (fileReply w pre.length bad).status = GL_FALSE)
    (hpost : ∀ i g, post[i]? = some g →
      (fileReply w (pre.length + 1 + i) g).status ≠ GL_FALSE) :
    (main w (pre ++ bad :: post)).outcome = .exit 1 ∧
    stdoutText (main w (pre ++ bad :: post)).trace =
      pre.flatMap (fun g => g ++ ",PASSED\n".toList) ++
        (bad ++ ",FAILED\n".toList ++ '\t' :: (fileReply w pre.length bad).infoLog) ++
        post.flatMap (fun g => g ++ ",PASSED\n".toList) := by
  have hnf : ∀ g ∈ pre ++ bad :: post, isArgument g = false := fun g hg =>
    not_isArgument_of_getType g (htype g hg)
  obtain ⟨hfl, hfi⟩ := flagsOf_of_no_flag _ hnf
  have hparse : parseArgs Config.init 0 (pre ++ bad :: post) =
      .done Config.init (0 + (pre ++ bad :: post).length) := by
    rw [parseArgs_eq, hfl, hfi]
    simp [applyFlags]
  -- the files before `bad`
  obtain ⟨a1, a2, a3⟩ := fileLoop_all_accepted w pre 0 0
    (fun g hg => htype g (List.mem_append_left _ hg))
    (fun g hg => hread g (List.mem_append_left _ hg))
    (fun i g h => by simpa using hpre i g h)
  rw [Nat.zero_add] at a2
  -- `bad`
  have hbadmem : bad ∈ pre ++ bad :: post := by simp
  obtain ⟨content, hfile, hn⟩ := hread bad hbadmem
  have hrej : (w.driver pre.length content
      (submittedType Config.init (getType Config.init bad))).status = GL_FALSE := by
    simpa [fileReply, hfile, submittedType_init] using hbad
  have hlog : (w.driver pre.length content
      (submittedType Config.init (getType Config.init bad))).infoLog =
      (fileReply w pre.length bad).infoLog := by
    simp [fileReply, hfile, submittedType_init]
  have hp := processFile_rejected Config.init w pre.length bad content (htype bad hbadmem)
    hfile hn hrej
  -- the files after `bad`
  obtain ⟨b1, b2, b3⟩ := fileLoop_all_accepted w post (pre.length + 1) 1
    (fun g hg => htype g (List.mem_append_right _ (List.mem_cons_of_mem _ hg)))
    (fun g hg => hread g (List.mem_append_right _ (List.mem_cons_of_mem _ hg)))
    hpost
  -- the loop over the whole list
  have hloop : (fileLoop Config.init w 0 0 (pre ++ bad :: post)).result = .done 1 ∧
      stdout (fileLoop Config.init w 0 0 (pre ++ bad :: post)).events =
        pre.map Out.passed ++ [.failed bad, .diag (some (fileReply w pre.length bad).infoLog)] ++
          post.map Out.passed := by
    rw [fileLoop_append, a1]
    simp only [a2, fileLoop, hnf bad hbadmem, hp, Bool.false_eq_true, if_false, if_true]
    refine ⟨b1, ?_⟩
    rw [stdout_append, stdout_append, a3, b3, hlog]
    simp [stdout, LOG_DEBUG, Config.init]
  obtain ⟨l1, l2⟩ := hloop
  have hlen : ¬ (0 + (pre ++ bad :: post).length < 1) := by
    simp
  have hrun : (main w (pre ++ bad :: post)).outcome = .exit 1 ∧
      stdout (main w (pre ++ bad :: post)).trace =
        stdout (fileLoop Config.init w 0 0 (pre ++ bad :: post)).events := by
    rw [main_eq_afterParse, hparse]
    simp only [afterParse, l1]
    rcases hstdin with htty | hempty
    · simp only [htty, Bool.not_true, Bool.false_eq_true, if_false, hlen]
      refine ⟨trivial, ?_⟩
      simp [stdout, List.filterMap_append]
    · by_cases htty : w.isatty = true
      · simp only [htty, Bool.not_true, Bool.false_eq_true, if_false, hlen]
        refine ⟨trivial, ?_⟩
        simp [stdout, List.filterMap_append]
      · have htty2 : w.isatty = false := by simpa using htty
        have hs : processStdinInput Config.init w
            (fileLoop Config.init w 0 0 (pre ++ bad :: post)).calls = ([], .returned) := by
          rcases processStdinInput_shape Config.init w
            (fileLoop Config.init w 0 0 (pre ++ bad :: post)).calls with
            ⟨_, he⟩ | ⟨a, _, _, _, he⟩ | ⟨a, _, _, _, he⟩
          · exact he
          · have hl := readStdin_length w.stdin
            have hc := congrArg Prod.snd he
            simp only [processStdinInput, hempty, List.length_nil, Nat.zero_add] at hl hc
            simp [hl] at hc
          · have hl := readStdin_length w.stdin
            have hc := congrArg Prod.snd he
            simp only [processStdinInput, hempty, List.length_nil, Nat.zero_add] at hl hc
            simp [hl] at hc
        simp only [htty2, Bool.not_false, if_true, hs]
        refine ⟨trivial, ?_⟩
        simp [stdout, List.filterMap_append]
  refine ⟨hrun.1, ?_⟩
  unfold stdoutText
  rw [hrun.2, l2]
  simp [List.flatMap_append, List.flatMap_map, render, fmtStr]

/-- Witness of C4 (amended): `a.vert` (accepted), `b.frag` (rejected) at a
terminal gives `a.vert,PASSED`, `b.frag,FAILED`, the diagnostic, and exit
code 1. -/
theorem one_failure_reports_in_order_witness :
    (main terminalWorld ["a.vert".toList, "b.frag".toList]).outcome = .exit 1 ∧
    stdoutText (main terminalWorld ["a.vert".toList, "b.frag".toList]).trace =
      ("a.vert,PASSED\n" ++ "b.frag,FAILED\n" ++ "\t0:1(11): error: syntax error\n").toList := by
  have h := one_failure_reports_in_order terminalWorld ["a.vert".toList] [] "b.frag".toList
    (Or.inl rfl) (by decide) (by decide)
    (fun i g h => by
      cases i with
      | zero =>
        simp only [List.getElem?_cons_zero, Option.some.injEq] at h
        subst h
        decide
      | succ n => simp at h)
    (by decide) (fun i g h => by simp at h)
  refine ⟨h.1, ?_⟩
  rw [show ["a.vert".toList, "b.frag".toList] = ["a.vert".toList] ++ "b.frag".toList :: [] from rfl,
    h.2]
  decide

/-! ## `readFile` and its assertion -/

theorem cstrOf_eq_self_iff (content : List Char) :
    (cstrOf (content ++ [NUL])).length = content.length ↔ NUL ∉ content := by
  induction content with
  | nil => simp [cstrOf]
  | cons c cs ih =>
    by_cases hc : c = NUL
    · subst hc
      simp [cstrOf, List.takeWhile]
    · have hb : (c != NUL) = true := by simpa using hc
      have hc2 : ¬ NUL = c := fun e => hc e.symm
      simp only [cstrOf] at ih
      simp [cstrOf, List.takeWhile, hb, hc2, ih]

/-- C20: for a file that opens and is read in full, the assertion
`sz == strlen(source)` of `readFile` holds iff the content holds no zero byte;
`readFile` ends in the failed assertion iff it does not hold, and when it holds
the returned buffer is the content followed by a terminating zero, which as a
C string is the content itself. -/
theorem readFile_assert_iff_no_zero (w : World) (path : CStr) (content : List Char)
    (hfile : w.files path = some content) :
    (content.length = strlen (content ++ [NUL]) ↔ NUL ∉ content) ∧
    (readFile w path = .assertFail ↔ NUL ∈ content) ∧
    (NUL ∉ content →
      readFile w path = .ok (content ++ [NUL]) ∧ cstrOf (content ++ [NUL]) = content) := by
  have h1 : content.length = strlen (content ++ [NUL]) ↔ NUL ∉ content := by
    unfold strlen
    rw [eq_comm]
    exact cstrOf_eq_self_iff content
  refine ⟨h1, ?_, ?_⟩
  · by_cases hn : NUL ∈ content
    · have : ¬ content.length = strlen (content ++ [NUL]) := fun e => (h1.1 e) hn
      simp [readFile, hfile, this, hn]
    · have : content.length = strlen (content ++ [NUL]) := h1.2 hn
      simp [readFile, hfile, hn, ← this]
  · intro hn
    exact ⟨readFile_ok w path content hfile hn, cstrOf_append_nul content hn⟩

/-- Witness of C20: `a.vert` of the example world holds no zero byte. -/
theorem readFile_assert_iff_no_zero_witness :
    readFile terminalWorld "a.vert".toList = .ok ("void main(){}".toList ++ [NUL]) :=
  ((readFile_assert_iff_no_zero terminalWorld "a.vert".toList "void main(){}".toList
    (by decide)).2.2 (by decide)).1

/-! ## The growable buffer of the stdin path -/

theorem set_append_cons {α : Type} (l r : List α) (x y : α) :
    (l ++ x :: r).set l.length y = l ++ y :: r := by
  induction l with
  | nil => rfl
  | cons a l ih => simp [List.set, ih]

/-- The state of the buffer after the bytes `xs` have been stored: the cells hold
`xs` followed by cells never written, nothing was written outside the
allocation, and `maxSize` is the number of cells. -/
theorem readLoop_good (rest xs : List Char) (b : Buffer) (m : Nat)
    (hcells : b.cells = xs.map some ++ List.replicate (m + 1) none)
    (hmax : b.maxSize = xs.length + (m + 1))
    (hlen : b.length = xs.length) (hoob : b.oob = false) (hm : m + 1 ≤ INITIAL_SIZE) :
    ∃ m1, (readLoop rest b).cells =
        (xs ++ rest).map some ++ List.replicate (m1 + 1) none ∧
      (readLoop rest b).maxSize = (xs ++ rest).length + (m1 + 1) ∧
      (readLoop rest b).length = (xs ++ rest).length ∧
      (readLoop rest b).oob = false ∧ m1 + 1 ≤ INITIAL_SIZE := by
  induction rest generalizing xs b m with
  | nil => exact ⟨m, by simpa [readLoop] using ⟨hcells, hmax, hlen, hoob, hm⟩⟩
  | cons c rest ih =>
    simp only [readLoop]
    have hsplit : ∀ j : Nat, xs.map some ++ List.replicate (j + 1) none =
        xs.map some ++ none :: List.replicate j (none : Option Char) := by
      intro j
      rw [List.replicate_succ]
    have hl : (xs.map some).length = xs.length := by simp
    by_cases hg : b.length + 1 ≥ b.maxSize
    · -- the buffer grows by `INITIAL_SIZE`
      have hm0 : m = 0 := by omega
      subst hm0
      have hgrow : b.grow INITIAL_SIZE =
          { b with cells := b.cells ++ List.replicate INITIAL_SIZE none,
                   maxSize := b.maxSize + INITIAL_SIZE } := by
        simp [Buffer.grow, hg]
      have hc2 : b.cells ++ List.replicate INITIAL_SIZE none =
          xs.map some ++ none :: List.replicate INITIAL_SIZE (none : Option Char) := by
        rw [hcells]
        simp [List.replicate_succ]
      have hI : INITIAL_SIZE - 1 + 1 = INITIAL_SIZE := by decide
      have := ih (xs ++ [c]) ((b.grow INITIAL_SIZE).push c) (INITIAL_SIZE - 1)
        (by
          rw [hgrow, hI]
          simp only [Buffer.push, hc2, hlen]
          rw [← hl, set_append_cons]
          simp)
        (by
          rw [hgrow, hI]
          simp only [Buffer.push, hmax, List.length_append, List.length_singleton])
        (by rw [hgrow]; simp [Buffer.push, hlen])
        (by
          rw [hgrow]
          simp only [Buffer.push, hoob, hc2, hlen, Bool.false_or, decide_eq_false_iff_not]
          simp)
        (by rw [hI])
      simpa using this
    · -- there is room left
      have hgrow : b.grow INITIAL_SIZE = b := by
        simp only [Buffer.grow]
        rw [if_neg hg]
      have hm1 : 1 ≤ m := by omega
      obtain ⟨j, rfl⟩ : ∃ j, m = j + 1 := ⟨m - 1, by omega⟩
      have := ih (xs ++ [c]) ((b.grow INITIAL_SIZE).push c) j
        (by
          rw [hgrow]
          simp only [Buffer.push, hcells, hlen]
          rw [hsplit, ← hl, set_append_cons]
          simp)
        (by
          rw [hgrow]
          simp only [Buffer.push, hmax, List.length_append, List.length_singleton]
          omega)
        (by rw [hgrow]; simp [Buffer.push, hlen])
        (by
          rw [hgrow]
          simp only [Buffer.push, hoob, hcells, hlen, Bool.false_or, decide_eq_false_iff_not]
          simp)
        (by omega)
      simpa using this

/-- The buffer `processStdinInput` hands on: the input, the terminating zero,
and `m` cells never written. -/
theorem readStdin_good (input : List Char) :
    ∃ m, (readStdin input).cells = input.map some ++ some NUL :: List.replicate m none ∧
      (readStdin input).maxSize = input.length + 1 + m ∧
      (readStdin input).length = input.length + 1 ∧
      (readStdin input).oob = false ∧ m ≤ INITIAL_SIZE := by
  have hI : INITIAL_SIZE - 1 + 1 = INITIAL_SIZE := by decide
  obtain ⟨m1, h1, h2, h3, h4, h5⟩ := readLoop_good input [] Buffer.init (INITIAL_SIZE - 1)
    (by rw [hI]; rfl) (by rw [hI]; simp [Buffer.init]) rfl rfl (by rw [hI])
  simp only [List.nil_append] at h1 h2 h3
  have hl : (input.map some).length = input.length := by simp
  unfold readStdin
  by_cases hg : (readLoop input Buffer.init).length + 1 ≥ (readLoop input Buffer.init).maxSize
  · have hm0 : m1 = 0 := by omega
    subst hm0
    have hgrow : (readLoop input Buffer.init).grow 1 =
        { readLoop input Buffer.init with
          cells := (readLoop input Buffer.init).cells ++ List.replicate 1 none,
          maxSize := (readLoop input Buffer.init).maxSize + 1 } := by
      simp [Buffer.grow, hg]
    refine ⟨1, ?_, ?_, ?_, ?_, by decide⟩
    · rw [hgrow]
      simp only [Buffer.push, h1, h3]
      have : input.map some ++ List.replicate (0 + 1) none ++ List.replicate 1 none =
          input.map some ++ none :: [(none : Option Char)] := by
        simp [List.replicate]
      rw [this, ← hl, set_append_cons]
      rfl
    · rw [hgrow]
      simp only [Buffer.push, h2]
    · rw [hgrow]
      simp only [Buffer.push, h3]
    · rw [hgrow]
      simp only [Buffer.push, h4, h1, h3, Bool.false_or, decide_eq_false_iff_not]
      simp
  · have hgrow : (readLoop input Buffer.init).grow 1 = readLoop input Buffer.init := by
      simp only [Buffer.grow]
      rw [if_neg hg]
    refine ⟨m1, ?_, ?_, ?_, ?_, by omega⟩
    · rw [hgrow]
      simp only [Buffer.push, h1, h3]
      rw [List.replicate_succ, ← hl, set_append_cons]
    · rw [hgrow]
      simp only [Buffer.push, h2]
      omega
    · rw [hgrow]
      simp only [Buffer.push, h3]
    · rw [hgrow]
      simp only [Buffer.push, h4, h1, h3, Bool.false_or, decide_eq_false_iff_not]
      simp

theorem cstrOfCells_input (xs : List Char) (rest : List (Option Char)) :
    cstrOfCells (xs.map some ++ some NUL :: rest) = cstrOf xs := by
  induction xs with
  | nil => simp [cstrOfCells, cstrOf, List.takeWhile]
  | cons c cs ih =>
    by_cases hc : c = NUL
    · subst hc
      simp [cstrOfCells, cstrOf, List.takeWhile]
    · have hb : (c != NUL) = true := by simpa using hc
      have hb2 : (some c != some NUL) = true := by simpa using hc
      simp only [cstrOfCells, cstrOf] at ih
      simp [cstrOfCells, cstrOf, List.takeWhile, hb, hb2, ih]

theorem cstrOfCells_readStdin (input : List Char) :
    cstrOfCells (readStdin input).cells = cstrOf input := by
  obtain ⟨m, h1, _⟩ := readStdin_good input
  rw [h1, cstrOfCells_input]

theorem cstrOf_eq_self (xs : List Char) (hn : NUL ∉ xs) : cstrOf xs = xs := by
  unfold cstrOf
  rw [List.takeWhile_eq_self_iff]
  intro c hcin
  have : c ≠ NUL := fun e => hn (e ▸ hcin)
  simpa using this

/-- C17: for every input the read loop of `processStdinInput` never stores a byte
outside the allocation (`maxSize` is the number of allocated cells and the
writes stay below it), and the buffer it hands on holds the bytes of the input
in order followed by one zero byte, `length` counting them all; the C string
the compile step reads from it is the input up to its first zero byte, the whole
input when it holds none.  The variables stay below `n + 1 + 1024`. -/
theorem stdin_buffer_holds_input (input : List Char) :
    (readStdin input).oob = false ∧
    (readStdin input).cells.length = (readStdin input).maxSize ∧
    (readStdin input).length = input.length + 1 ∧
    (readStdin input).length ≤ (readStdin input).maxSize ∧
    (readStdin input).maxSize ≤ input.length + 1 + INITIAL_SIZE ∧
    (readStdin input).cells.take (readStdin input).length = input.map some ++ [some NUL] ∧
    cstrOfCells (readStdin input).cells = cstrOf input ∧
    (NUL ∉ input → cstrOfCells (readStdin input).cells = input) := by
  obtain ⟨m, h1, h2, h3, h4, h5⟩ := readStdin_good input
  have hc : cstrOfCells (readStdin input).cells = cstrOf input := by
    rw [h1, cstrOfCells_input]
  refine ⟨h4, ?_, h3, by omega, by omega, ?_, hc, ?_⟩
  · rw [h1, h2]
    simp
    omega
  · rw [h1, h3]
    have : input.map some ++ some NUL :: List.replicate m none =
        (input.map some ++ [some NUL]) ++ List.replicate m none := by simp
    rw [this, List.take_left']
    simp
  · intro hn
    rw [hc]
    have := cstrOf_append_nul input hn
    unfold cstrOf at this ⊢
    rw [List.takeWhile_eq_self_iff]
    intro c hcin
    have : c ≠ NUL := fun e => hn (e ▸ hcin)
    simpa using this

/-- Witness of C17: 2500 bytes, more than two increments of 1024. -/
theorem stdin_buffer_holds_input_witness :
    (readStdin (List.replicate 2500 'x')).oob = false ∧
    (readStdin (List.replicate 2500 'x')).length = 2501 ∧
    cstrOfCells (readStdin (List.replicate 2500 'x')).cells = List.replicate 2500 'x' :=
  ⟨(stdin_buffer_holds_input (List.replicate 2500 'x')).1,
    by rw [(stdin_buffer_holds_input (List.replicate 2500 'x')).2.2.1, List.length_replicate],
    (stdin_buffer_holds_input (List.replicate 2500 'x')).2.2.2.2.2.2.2
      (fun h => absurd (List.eq_of_mem_replicate h) (by decide))⟩

/-! ## The events of `processFile`, case by case -/

theorem mem_LOG_DEBUG (cfg : Config) (o : Out) (e : Ev) :
    e ∈ LOG_DEBUG cfg o ↔ cfg.logType = .LT_VERBOSE ∧ e = .print o := by
  unfold LOG_DEBUG
  split_ifs with h <;> simp [h]

theorem mem_LOG_INFO (cfg : Config) (o : Out) (e : Ev) :
    e ∈ LOG_INFO cfg o ↔ cfg.logType ≠ .LT_QUIET ∧ e = .print o := by
  unfold LOG_INFO
  cases h : cfg.logType <;> simp [LogType.val]

theorem readFile_assertFail (w : World) (f : CStr) (content : List Char)
    (h : w.files f = some content) (hn : NUL ∈ content) : readFile w f = .assertFail := by
  have h1 : ¬ (cstrOf (content ++ [NUL])).length = content.length := fun e =>
    ((cstrOf_eq_self_iff content).1 e) hn
  have h2 : ¬ content.length = strlen (content ++ [NUL]) := fun e => h1 e.symm
  simp [readFile, h, h2]

theorem processFile_assertFail (cfg : Config) (w : World) (k : Nat) (f : CStr)
    (content : List Char) (ht : getType cfg f ≠ -1) (hfile : w.files f = some content)
    (hn : NUL ∈ content) :
    processFile cfg w k f =
      { events := LOG_DEBUG cfg (.testing f) ++ [.fopen f], calls := k, result := .abort } := by
  simp [processFile, ht, readFile_assertFail w f content hfile hn]

/-- The six ways a call of `processFile` goes. -/
theorem processFile_cases (cfg : Config) (w : World) (k : Nat) (f : CStr) :
    (getType cfg f = -1 ∧ cfg.filterFilenames = true ∧
      processFile cfg w k f =
        { events := LOG_DEBUG cfg (.testing f), calls := k, result := .ret 0 }) ∨
    (getType cfg f = -1 ∧ cfg.filterFilenames = false ∧
      processFile cfg w k f =
        { events := LOG_DEBUG cfg (.testing f) ++ [.print (.typeError f)], calls := k,
          result := .ret 1 }) ∨
    (getType cfg f ≠ -1 ∧ w.files f = none ∧
      processFile cfg w k f =
        { events := LOG_DEBUG cfg (.testing f) ++ [.fopen f, .print (.openError f)],
          calls := k, result := .ret 1 }) ∨
    (getType cfg f ≠ -1 ∧ (∃ content, w.files f = some content ∧ NUL ∈ content) ∧
      processFile cfg w k f =
        { events := LOG_DEBUG cfg (.testing f) ++ [.fopen f], calls := k,
          result := .abort }) ∨
    (getType cfg f ≠ -1 ∧ ∃ content, w.files f = some content ∧ NUL ∉ content ∧
      (w.driver k content (submittedType cfg (getType cfg f))).status = GL_FALSE ∧
      processFile cfg w k f =
        { events := LOG_DEBUG cfg (.testing f) ++ [.fopen f] ++ LOG_DEBUG cfg (.compiling f) ++
            LOG_DEBUG cfg (.usingType (submittedType cfg (getType cfg f))) ++
            [.compile content (submittedType cfg (getType cfg f)), .print (.failed f),
              .print (.diag (some
                (w.driver k content (submittedType cfg (getType cfg f))).infoLog))],
          calls := k + 1, result := .ret 2 }) ∨
    (getType cfg f ≠ -1 ∧ ∃ content, w.files f = some content ∧ NUL ∉ content ∧
      (w.driver k content (submittedType cfg (getType cfg f))).status ≠ GL_FALSE ∧
      processFile cfg w k f =
        { events := LOG_DEBUG cfg (.testing f) ++ [.fopen f] ++ LOG_DEBUG cfg (.compiling f) ++
            LOG_DEBUG cfg (.usingType (submittedType cfg (getType cfg f))) ++
            [.compile content (submittedType cfg (getType cfg f))] ++
            LOG_INFO cfg (.passed f),
          calls := k + 1, result := .ret 0 }) := by
  by_cases ht : getType cfg f = -1
  · by_cases hfl : cfg.filterFilenames = true
    · exact Or.inl ⟨ht, hfl, processFile_skipped cfg w k f ht hfl⟩
    · have hfl2 : cfg.filterFilenames = false := by simpa using hfl
      exact Or.inr (Or.inl ⟨ht, hfl2, processFile_typeError cfg w k f ht hfl2⟩)
  · cases hfile : w.files f with
    | none => exact Or.inr (Or.inr (Or.inl ⟨ht, rfl, processFile_openError cfg w k f ht hfile⟩))
    | some content =>
      by_cases hn : NUL ∈ content
      · exact Or.inr (Or.inr (Or.inr (Or.inl
          ⟨ht, ⟨content, rfl, hn⟩, processFile_assertFail cfg w k f content ht hfile hn⟩)))
      · by_cases hrej : (w.driver k content (submittedType cfg (getType cfg f))).status =
            GL_FALSE
        · exact Or.inr (Or.inr (Or.inr (Or.inr (Or.inl
            ⟨ht, content, rfl, hn, hrej,
              processFile_rejected cfg w k f content ht hfile hn hrej⟩))))
        · exact Or.inr (Or.inr (Or.inr (Or.inr (Or.inr
            ⟨ht, content, rfl, hn, hrej,
              processFile_accepted cfg w k f content ht hfile hn hrej⟩))))

theorem submittedType_cases (cfg : Config) (f : CStr) (ht : getType cfg f ≠ -1) :
    submittedType cfg (getType cfg f) = GL_VERTEX_SHADER ∨
    submittedType cfg (getType cfg f) = GL_FRAGMENT_SHADER ∨
    (cfg.typeOverride ≠ -1 ∧ submittedType cfg (getType cfg f) = cfg.typeOverride) := by
  by_cases hov : cfg.typeOverride = -1
  · have hs : submittedType cfg (getType cfg f) = getType cfg f := by
      simp [submittedType, hov]
    rw [hs]
    rw [getType_eq] at ht ⊢
    unfold typeOfSuffix at ht ⊢
    split_ifs at ht ⊢ with h1 h2 h3
    · exact Or.inl rfl
    · exact Or.inr (Or.inl rfl)
    · exact absurd hov h3
    · exact absurd rfl ht
  · exact Or.inr (Or.inr ⟨hov, by simp [submittedType, hov]⟩)

theorem submittedType_vertex_cases (cfg : Config) :
    submittedType cfg GL_VERTEX_SHADER = GL_VERTEX_SHADER ∨
    submittedType cfg GL_VERTEX_SHADER = GL_FRAGMENT_SHADER ∨
    (cfg.typeOverride ≠ -1 ∧ submittedType cfg GL_VERTEX_SHADER = cfg.typeOverride) := by
  by_cases hov : cfg.typeOverride = -1
  · exact Or.inl (by simp [submittedType, hov])
  · exact Or.inr (Or.inr ⟨hov, by simp [submittedType, hov]⟩)

theorem processFile_fileEv (cfg : Config) (w : World) (k : Nat) (f : CStr) :
    ∀ e ∈ (processFile cfg w k f).events, fileEv cfg e := by
  intro e hm
  rcases processFile_cases cfg w k f with ⟨_, _, he⟩ | ⟨_, _, he⟩ | ⟨_, _, he⟩ | ⟨_, _, he⟩ |
    ⟨ht, content, _, _, _, he⟩ | ⟨ht, content, _, _, _, he⟩
  all_goals
    rw [he] at hm
    simp only [List.mem_append, List.mem_cons, List.mem_singleton, mem_LOG_DEBUG,
      mem_LOG_INFO, List.mem_nil_iff, or_false] at hm
  · rw [hm.2]; simp [fileEv]
  · rcases hm with h | h
    · rw [h.2]; simp [fileEv]
    · rw [h]; simp [fileEv]
  · rcases hm with h | h | h
    · rw [h.2]; simp [fileEv]
    · rw [h]; simp [fileEv]
    · rw [h]; simp [fileEv]
  · rcases hm with h | h
    · rw [h.2]; simp [fileEv]
    · rw [h]; simp [fileEv]
  · rcases hm with (((h | h) | h) | h) | h | h | h
    · rw [h.2]; simp [fileEv]
    · rw [h]; simp [fileEv]
    · rw [h.2]; simp [fileEv]
    · rw [h.2]; simp [fileEv]
    · rw [h]; exact submittedType_cases cfg f ht
    · rw [h]; simp [fileEv]
    · rw [h]; simp [fileEv]
  · rcases hm with ((((h | h) | h) | h) | h) | h
    · rw [h.2]; simp [fileEv]
    · rw [h]; simp [fileEv]
    · rw [h.2]; simp [fileEv]
    · rw [h.2]; simp [fileEv]
    · rw [h]; exact submittedType_cases cfg f ht
    · rw [h.2]; simp [fileEv]

/-- Whether `processFile` returns 2 shows in its output: the FAILED line. -/
theorem processFile_failed (cfg : Config) (w : World) (k : Nat) (f : CStr) :
    ((processFile cfg w k f).result = .ret 2 ∧
      Ev.print (.failed f) ∈ (processFile cfg w k f).events) ∨
    ((processFile cfg w k f).result ≠ .ret 2 ∧
      ∀ name, Ev.print (.failed name) ∉ (processFile cfg w k f).events) := by
  rcases processFile_cases cfg w k f with ⟨_, _, he⟩ | ⟨_, _, he⟩ | ⟨_, _, he⟩ | ⟨_, _, he⟩ |
    ⟨ht, content, _, _, _, he⟩ | ⟨ht, content, _, _, _, he⟩
  · right; rw [he]; simp [mem_LOG_DEBUG]
  · right; rw [he]; simp [mem_LOG_DEBUG]
  · right; rw [he]; simp [mem_LOG_DEBUG]
  · right; rw [he]; simp [mem_LOG_DEBUG]
  · left; rw [he]; simp
  · right; rw [he]; simp [mem_LOG_DEBUG, mem_LOG_INFO]

/-! ## The stdin path, case by case -/

theorem processStdinInput_empty (cfg : Config) (w : World) (k : Nat) (h : w.stdin = []) :
    processStdinInput cfg w k = ([], .returned) := by
  have hl := readStdin_length w.stdin
  simp only [h, List.length_nil, Nat.zero_add] at hl
  simp only [processStdinInput, h, hl]
  simp

theorem processStdinInput_rejected (cfg : Config) (w : World) (k : Nat) (hin : w.stdin ≠ [])
    (hrej : (w.driver k (cstrOf w.stdin) (submittedType cfg GL_VERTEX_SHADER)).status =
      GL_FALSE) :
    processStdinInput cfg w k =
      (LOG_DEBUG cfg (.allocated (readStdin w.stdin).maxSize (readStdin w.stdin).length) ++
        LOG_DEBUG cfg (.compiling STDIN_NAME) ++
        LOG_DEBUG cfg (.usingType (submittedType cfg GL_VERTEX_SHADER)) ++
        [.compile (cstrOf w.stdin) (submittedType cfg GL_VERTEX_SHADER),
          .print (.failed STDIN_NAME),
          .print (.diag (some (w.driver k (cstrOf w.stdin)
            (submittedType cfg GL_VERTEX_SHADER)).infoLog)),
          .destroyContext], .exited 1) := by
  have hl := readStdin_length w.stdin
  have hpos : 0 < w.stdin.length := List.length_pos.2 hin
  have hgt : ¬ (readStdin w.stdin).length ≤ 1 := by omega
  have hty : submittedType cfg (if cfg.typeOverride != -1 then cfg.typeOverride
      else GL_VERTEX_SHADER) = submittedType cfg GL_VERTEX_SHADER := by
    unfold submittedType
    by_cases h : cfg.typeOverride = -1 <;> simp [h]
  have hsrc := cstrOfCells_readStdin w.stdin
  simp only [processStdinInput, hgt, if_false, compileShader_eq, hty, hsrc, hrej, if_true]
  simp [LOG_ERROR]

theorem processStdinInput_accepted (cfg : Config) (w : World) (k : Nat) (hin : w.stdin ≠ [])
    (hacc : (w.driver k (cstrOf w.stdin) (submittedType cfg GL_VERTEX_SHADER)).status ≠
      GL_FALSE) :
    processStdinInput cfg w k =
      (LOG_DEBUG cfg (.allocated (readStdin w.stdin).maxSize (readStdin w.stdin).length) ++
        LOG_DEBUG cfg (.compiling STDIN_NAME) ++
        LOG_DEBUG cfg (.usingType (submittedType cfg GL_VERTEX_SHADER)) ++
        [.compile (cstrOf w.stdin) (submittedType cfg GL_VERTEX_SHADER)] ++
        LOG_INFO cfg (.passed STDIN_NAME) ++ [.destroyContext], .exited 0) := by
  have hl := readStdin_length w.stdin
  have hpos : 0 < w.stdin.length := List.length_pos.2 hin
  have hgt : ¬ (readStdin w.stdin).length ≤ 1 := by omega
  have hty : submittedType cfg (if cfg.typeOverride != -1 then cfg.typeOverride
      else GL_VERTEX_SHADER) = submittedType cfg GL_VERTEX_SHADER := by
    unfold submittedType
    by_cases h : cfg.typeOverride = -1 <;> simp [h]
  have hsrc := cstrOfCells_readStdin w.stdin
  simp only [processStdinInput, hgt, if_false, compileShader_eq, hty, hsrc, hacc, if_true]
  simp

/-- The events of the stdin path on a non-empty input: events of the kind
`fileEv`, then `destroyContext`, then `exit` with 0 or 1. -/
theorem processStdinInput_structure (cfg : Config) (w : World) (k : Nat) (hin : w.stdin ≠ []) :
    ∃ body code, (∀ e ∈ body, fileEv cfg e) ∧ (code = 0 ∨ code = 1) ∧
      processStdinInput cfg w k = (body ++ [.destroyContext], .exited code) := by
  by_cases hrej : (w.driver k (cstrOf w.stdin) (submittedType cfg GL_VERTEX_SHADER)).status =
      GL_FALSE
  · refine ⟨LOG_DEBUG cfg (.allocated (readStdin w.stdin).maxSize (readStdin w.stdin).length) ++
        LOG_DEBUG cfg (.compiling STDIN_NAME) ++
        LOG_DEBUG cfg (.usingType (submittedType cfg GL_VERTEX_SHADER)) ++
        [.compile (cstrOf w.stdin) (submittedType cfg GL_VERTEX_SHADER),
          .print (.failed STDIN_NAME),
          .print (.diag (some (w.driver k (cstrOf w.stdin)
            (submittedType cfg GL_VERTEX_SHADER)).infoLog))], 1, ?_, Or.inr rfl, ?_⟩
    rotate_left
    · rw [processStdinInput_rejected cfg w k hin hrej]
      simp
    · intro e hm
      simp only [List.mem_append, List.mem_cons, List.mem_singleton, mem_LOG_DEBUG,
        List.mem_nil_iff, or_false] at hm
      rcases hm with ((h | h) | h) | h | h | h
      · rw [h.2]; simp [fileEv]
      · rw [h.2]; simp [fileEv]
      · rw [h.2]; simp [fileEv]
      · rw [h]; exact submittedType_vertex_cases cfg
      · rw [h]; simp [fileEv]
      · rw [h]; simp [fileEv]
  · refine ⟨LOG_DEBUG cfg (.allocated (readStdin w.stdin).maxSize (readStdin w.stdin).length) ++
        LOG_DEBUG cfg (.compiling STDIN_NAME) ++
        LOG_DEBUG cfg (.usingType (submittedType cfg GL_VERTEX_SHADER)) ++
        [.compile (cstrOf w.stdin) (submittedType cfg GL_VERTEX_SHADER)] ++
        LOG_INFO cfg (.passed STDIN_NAME), 0, ?_, Or.inl rfl, ?_⟩
    rotate_left
    · rw [processStdinInput_accepted cfg w k hin hrej]
    · intro e hm
      simp only [List.mem_append, List.mem_cons, List.mem_singleton, mem_LOG_DEBUG,
        mem_LOG_INFO, List.mem_nil_iff, or_false] at hm
      rcases hm with (((h | h) | h) | h) | h
      · rw [h.2]; simp [fileEv]
      · rw [h.2]; simp [fileEv]
      · rw [h.2]; simp [fileEv]
      · rw [h]; exact submittedType_vertex_cases cfg
      · rw [h.2]; simp [fileEv]

/-! ## The second loop of `main`, as a whole -/

/-- The events of the second loop: events of the kind `fileEv`, followed by
`destroyContext` exactly when `main` returns 1 from inside the loop. -/
theorem fileLoop_structure (cfg : Config) (w : World) (k : Nat) (rv : Int)
    (args : List CStr) :
    ∃ body, (∀ e ∈ body, fileEv cfg e) ∧
      (((fileLoop cfg w k rv args).events = body ∧
          ((fileLoop cfg w k rv args).result = .abort ∨
            ∃ rv1, (fileLoop cfg w k rv args).result = .done rv1)) ∨
        ((fileLoop cfg w k rv args).events = body ++ [.destroyContext] ∧
          (fileLoop cfg w k rv args).result = .ret 1)) := by
  induction args generalizing k rv with
  | nil => exact ⟨[], by simp, Or.inl ⟨rfl, Or.inr ⟨rv, rfl⟩⟩⟩
  | cons a rest ih =>
    by_cases ha : isArgument a = true
    · simp only [fileLoop, ha, if_true]
      exact ih k rv
    · have ha2 : isArgument a = false := by simpa using ha
      have hp := processFile_fileEv cfg w k a
      have step : ∀ rv1 : Int, ∃ body, (∀ e ∈ body, fileEv cfg e) ∧
          (((processFile cfg w k a).events ++
                (fileLoop cfg w (processFile cfg w k a).calls rv1 rest).events = body ∧
              ((fileLoop cfg w (processFile cfg w k a).calls rv1 rest).result = .abort ∨
                ∃ rv2, (fileLoop cfg w (processFile cfg w k a).calls rv1 rest).result =
                  .done rv2)) ∨
            ((processFile cfg w k a).events ++
                (fileLoop cfg w (processFile cfg w k a).calls rv1 rest).events =
                body ++ [.destroyContext] ∧
              (fileLoop cfg w (processFile cfg w k a).calls rv1 rest).result = .ret 1)) := by
        intro rv1
        obtain ⟨body, hb, h | h⟩ := ih (processFile cfg w k a).calls rv1
        · refine ⟨(processFile cfg w k a).events ++ body, ?_, Or.inl ⟨by rw [h.1], h.2⟩⟩
          intro e hm
          rcases List.mem_append.1 hm with h1 | h1
          · exact hp e h1
          · exact hb e h1
        · refine ⟨(processFile cfg w k a).events ++ body, ?_,
            Or.inr ⟨by rw [h.1, List.append_assoc], h.2⟩⟩
          intro e hm
          rcases List.mem_append.1 hm with h1 | h1
          · exact hp e h1
          · exact hb e h1
      simp only [fileLoop, ha2]
      cases hr : (processFile cfg w k a).result with
      | abort => exact ⟨_, hp, Or.inl ⟨rfl, Or.inl rfl⟩⟩
      | ret code =>
        by_cases h2 : code = 2
        · simpa [h2] using step 1
        · by_cases h1 : code = 1
          · have h12 : ¬ ((1 : Int) = 2) := by decide
            simp only [h1, h12, if_true, if_false, Bool.false_eq_true]
            exact ⟨_, hp, Or.inr ⟨rfl, trivial⟩⟩
          · simpa [h2, h1] using step rv

/-- The `retValue` the second loop ends with: the initial one when no FAILED
line was printed, 1 when one was. -/
theorem fileLoop_retValue (cfg : Config) (w : World) (k : Nat) (rv0 rv : Int)
    (args : List CStr) (h : (fileLoop cfg w k rv0 args).result = .done rv) :
    (rv = rv0 ∧ ∀ name, Ev.print (.failed name) ∉ (fileLoop cfg w k rv0 args).events) ∨
    (rv = 1 ∧ ∃ name, Ev.print (.failed name) ∈ (fileLoop cfg w k rv0 args).events) := by
  induction args generalizing k rv0 with
  | nil =>
    simp only [fileLoop, LoopEnd.done.injEq] at h
    exact Or.inl ⟨h.symm, by simp [fileLoop]⟩
  | cons a rest ih =>
    by_cases ha : isArgument a = true
    · simp only [fileLoop, ha, if_true] at h ⊢
      exact ih k rv0 h
    · have ha2 : isArgument a = false := by simpa using ha
      simp only [fileLoop, ha2] at h ⊢
      cases hr : (processFile cfg w k a).result with
      | abort => simp [hr] at h
      | ret code =>
        rw [hr] at h
        by_cases h2 : code = 2
        · subst h2
          simp only [if_true, Bool.false_eq_true, if_false] at h ⊢
          right
          rcases processFile_failed cfg w k a with ⟨_, hm⟩ | ⟨hne, _⟩
          · refine ⟨?_, a, List.mem_append_left _ hm⟩
            rcases ih (processFile cfg w k a).calls 1 h with ⟨e, _⟩ | ⟨e, _⟩ <;> exact e
          · exact absurd hr hne
        · by_cases h1 : code = 1
          · subst h1
            have h12 : ¬ ((1 : Int) = 2) := by decide
            simp [h12] at h
          · simp only [h2, h1, if_false, Bool.false_eq_true] at h ⊢
            have hnf : ∀ name, Ev.print (.failed name) ∉ (processFile cfg w k a).events := by
              rcases processFile_failed cfg w k a with ⟨he, _⟩ | ⟨_, hm⟩
              · rw [hr] at he
                simp only [FileEnd.ret.injEq] at he
                exact absurd he h2
              · exact hm
            rcases ih (processFile cfg w k a).calls rv0 h with ⟨e, hno⟩ | ⟨e, name, hm⟩
            · left
              refine ⟨e, fun name hm => ?_⟩
              rcases List.mem_append.1 hm with h3 | h3
              · exact hnf name h3
              · exact hno name h3
            · right
              exact ⟨e, name, List.mem_append_right _ hm⟩

/-! ## The shape of a whole run -/

theorem isArgument_help : isArgument ARG_HELP = true := by decide

/-- A run with `-h` among the arguments. -/
theorem main_help (w : World) (args : List CStr) (h : ARG_HELP ∈ args) :
    main w args = { trace := [.print .usage, .print .help], outcome := .exit 1 } := by
  have hf : ARG_HELP ∈ flagsOf args := by
    simp only [flagsOf, List.mem_filter]
    exact ⟨h, isArgument_help⟩
  rw [main_eq_afterParse, parseArgs_eq, applyFlags_eq, if_pos hf]
  rfl

theorem parsedConfig_of_no_help (args : List CStr) (h : ARG_HELP ∉ args) :
    ∃ cfg, parsedConfig args = some cfg := by
  have hf : ARG_HELP ∉ flagsOf args := fun hm => h (List.mem_filter.1 hm).1
  rw [parsedConfig_eq, applyFlags_eq, if_neg hf]
  exact ⟨_, rfl⟩

theorem no_help_of_parsedConfig (args : List CStr) (cfg : Config)
    (h : parsedConfig args = some cfg) : ARG_HELP ∉ args := by
  intro hm
  have hf : ARG_HELP ∈ flagsOf args := by
    simp only [flagsOf, List.mem_filter]
    exact ⟨hm, isArgument_help⟩
  rw [parsedConfig_eq, applyFlags_eq, if_pos hf] at h
  cases h

theorem parseArgs_of_parsedConfig_count (args : List CStr) (cfg : Config)
    (h : parsedConfig args = some cfg) :
    parseArgs Config.init 0 args = .done cfg (filesOf args).length := by
  rw [parsedConfig_eq] at h
  rw [parseArgs_eq, h]
  simp

/-- A run that gets past the parsing pass, by the way the second loop ends. -/
theorem main_of_loop (w : World) (args : List CStr) (cfg : Config)
    (hcfg : parsedConfig args = some cfg) :
    ((fileLoop cfg w 0 0 args).result = .abort →
      main w args = { trace := .createContext :: (fileLoop cfg w 0 0 args).events,
                      outcome := .abort }) ∧
    (∀ code, (fileLoop cfg w 0 0 args).result = .ret code →
      main w args = { trace := .createContext :: (fileLoop cfg w 0 0 args).events,
                      outcome := .exit code }) ∧
    (∀ rv, (fileLoop cfg w 0 0 args).result = .done rv →
      (w.isatty = true → filesOf args = [] →
        main w args =
          { trace := .createContext :: ((fileLoop cfg w 0 0 args).events ++ [.print .usage]),
            outcome := .exit 1 }) ∧
      (w.isatty = true → filesOf args ≠ [] →
        main w args =
          { trace := .createContext ::
              ((fileLoop cfg w 0 0 args).events ++ [.destroyContext]),
            outcome := .exit rv }) ∧
      (w.isatty = false → w.stdin = [] →
        main w args =
          { trace := .createContext ::
              ((fileLoop cfg w 0 0 args).events ++ [.destroyContext]),
            outcome := .exit rv }) ∧
      (w.isatty = false → w.stdin ≠ [] →
        ∀ evs code, processStdinInput cfg w (fileLoop cfg w 0 0 args).calls =
            (evs, .exited code) →
          main w args =
            { trace := .createContext :: ((fileLoop cfg w 0 0 args).events ++ evs),
              outcome := .exit code })) := by
  rw [main_eq_afterParse, parseArgs_of_parsedConfig_count args cfg hcfg]
  refine ⟨?_, ?_, ?_⟩
  · intro h
    simp [afterParse, h]
  · intro code h
    simp [afterParse, h]
  · intro rv h
    refine ⟨?_, ?_, ?_, ?_⟩
    · intro htty hno
      simp [afterParse, h, htty, hno]
    · intro htty hsome
      have : ¬ (filesOf args).length < 1 := by
        have := List.length_pos.2 hsome
        omega
      simp only [afterParse, h, htty, Bool.not_true, Bool.false_eq_true, if_false, this]
    · intro htty hempty
      simp [afterParse, h, htty, processStdinInput_empty cfg w _ hempty]
    · intro htty _ evs code hs
      simp [afterParse, h, htty, hs]

/-- The events of a run that gets past the parsing pass: the context creation,
events of the kind `fileEv`, and then nothing more (failed assertion), the usage
text (no filename at a terminal) or `destroyContext`. -/
theorem main_structure (w : World) (args : List CStr) (cfg : Config)
    (hcfg : parsedConfig args = some cfg) :
    ∃ body, (∀ e ∈ body, fileEv cfg e) ∧
      (((main w args).trace = .createContext :: body ∧ (main w args).outcome = .abort) ∨
        ((main w args).trace = .createContext :: (body ++ [.print .usage]) ∧
          (main w args).outcome = .exit 1 ∧ w.isatty = true ∧ filesOf args = []) ∨
        ((main w args).trace = .createContext :: (body ++ [.destroyContext]) ∧
          ∃ code, (main w args).outcome = .exit code)) := by
  obtain ⟨m1, m2, m3⟩ := main_of_loop w args cfg hcfg
  obtain ⟨body, hb, ⟨he, hr | ⟨rv, hr⟩⟩ | ⟨he, hr⟩⟩ := fileLoop_structure cfg w 0 0 args
  · exact ⟨body, hb, Or.inl (by rw [m1 hr, he]; exact ⟨rfl, rfl⟩)⟩
  · obtain ⟨n1, n2, n3, n4⟩ := m3 rv hr
    by_cases htty : w.isatty = true
    · by_cases hno : filesOf args = []
      · exact ⟨body, hb, Or.inr (Or.inl (by rw [n1 htty hno, he]; exact ⟨rfl, rfl, htty, hno⟩))⟩
      · exact ⟨body, hb, Or.inr (Or.inr (by rw [n2 htty hno, he]; exact ⟨rfl, rv, rfl⟩))⟩
    · have htty2 : w.isatty = false := by simpa using htty
      by_cases hin : w.stdin = []
      · exact ⟨body, hb, Or.inr (Or.inr (by rw [n3 htty2 hin, he]; exact ⟨rfl, rv, rfl⟩))⟩
      · obtain ⟨body2, code, hb2, _, hs⟩ :=
          processStdinInput_structure cfg w (fileLoop cfg w 0 0 args).calls hin
        refine ⟨body ++ body2, ?_, Or.inr (Or.inr ?_)⟩
        · intro e hm
          rcases List.mem_append.1 hm with h | h
          · exact hb e h
          · exact hb2 e h
        · rw [n4 htty2 hin _ code hs, he]
          exact ⟨by simp, code, rfl⟩
  · exact ⟨body, hb, Or.inr (Or.inr (by rw [m2 1 hr, he]; exact ⟨rfl, 1, rfl⟩))⟩

/-! ## Claims on skipping, help, usage and empty input -/

theorem opened_LOG_DEBUG (cfg : Config) (o : Out) : opened (LOG_DEBUG cfg o) = [] := by
  unfold LOG_DEBUG
  split_ifs <;> simp [opened]

/-- C11: a file whose suffix is neither `.vert` nor `.frag`, with no override set
and filter mode on, makes `processFile` return 0 without opening a file and
without a compile call; the loop of `main` goes on to the next argument with
the same `retValue` and the same count of compile calls, so the file adds
nothing to the exit code. -/
theorem filtered_file_is_skipped (cfg : Config) (w : World) (k : Nat) (rv : Int) (f : CStr)
    (rest : List CStr)
    (hv : strrchr f '.' ≠ some ".vert".toList) (hfr : strrchr f '.' ≠ some ".frag".toList)
    (hov : cfg.typeOverride = -1) (hfilter : cfg.filterFilenames = true) :
    (processFile cfg w k f).result = .ret 0 ∧
    (processFile cfg w k f).calls = k ∧
    opened (processFile cfg w k f).events = [] ∧
    compileCalls (processFile cfg w k f).events = [] ∧
    (isArgument f = false →
      fileLoop cfg w k rv (f :: rest) =
        { events := LOG_DEBUG cfg (.testing f) ++ (fileLoop cfg w k rv rest).events,
          calls := (fileLoop cfg w k rv rest).calls,
          result := (fileLoop cfg w k rv rest).result }) := by
  have ht : getType cfg f = -1 := by
    have h1 : ¬ strrchr f '.' = some DOT_VERT := hv
    have h2 : ¬ strrchr f '.' = some DOT_FRAG := hfr
    simp [getType_eq, typeOfSuffix, h1, h2, hov]
  have hp := processFile_skipped cfg w k f ht hfilter
  refine ⟨by rw [hp], by rw [hp], by rw [hp]; exact opened_LOG_DEBUG cfg _,
    by rw [hp]; exact compileCalls_LOG_DEBUG cfg _, ?_⟩
  intro hf
  have h02 : ¬ ((0 : Int) = 2) := by decide
  have h01 : ¬ ((0 : Int) = 1) := by decide
  simp only [fileLoop, hf, hp, h02, h01, if_false, Bool.false_eq_true]

/-- Witness of C11: `shader.glsl` under `-f`; in `-f shader.glsl a.vert` the run
goes on to `a.vert` and exits 0. -/
theorem filtered_file_is_skipped_witness :
    (processFile ⟨.LT_DEFAULT, -1, true⟩ terminalWorld 0 "shader.glsl".toList).result = .ret 0 ∧
    opened (processFile ⟨.LT_DEFAULT, -1, true⟩ terminalWorld 0 "shader.glsl".toList).events
      = [] ∧
    main terminalWorld ["-f".toList, "shader.glsl".toList, "a.vert".toList] =
      { trace := [.createContext, .fopen "a.vert".toList,
          .compile "void main(){}".toList GL_VERTEX_SHADER, .print (.passed "a.vert".toList),
          .destroyContext],
        outcome := .exit 0 } :=
  ⟨(filtered_file_is_skipped ⟨.LT_DEFAULT, -1, true⟩ terminalWorld 0 0 "shader.glsl".toList []
      (by decide) (by decide) rfl rfl).1,
    (filtered_file_is_skipped ⟨.LT_DEFAULT, -1, true⟩ terminalWorld 0 0 "shader.glsl".toList []
      (by decide) (by decide) rfl rfl).2.2.1,
    by decide⟩

/-- C15: with the token `-h` anywhere in the argument list the program prints the
usage text followed by the help text and exits with status 1 during the parsing
pass: the run has no other event, so no context is created and no file is
opened or compiled. -/
theorem help_exits_during_parsing (w : World) (args : List CStr)
    (h : "-h".toList ∈ args) :
    main w args = { trace := [.print .usage, .print .help], outcome := .exit 1 } ∧
    stdoutText (main w args).trace = USAGE_STR ++ HELP_STR ∧
    opened (main w args).trace = [] ∧ compileCalls (main w args).trace = [] := by
  have hm := main_help w args h
  rw [hm]
  refine ⟨rfl, ?_, rfl, rfl⟩
  simp [stdoutText, stdout, render]

/-- Witness of C15: `a.vert -h -q`. -/
theorem help_exits_during_parsing_witness :
    main terminalWorld ["a.vert".toList, "-h".toList, "-q".toList] =
      { trace := [.print .usage, .print .help], outcome := .exit 1 } :=
  (help_exits_during_parsing terminalWorld ["a.vert".toList, "-h".toList, "-q".toList]
    (by decide)).1

/-- C16 (counterexample): `a.vert -h` at a terminal has a filename token, and the
usage text is printed. -/
theorem usage_printed_with_filename_and_help :
    terminalWorld.isatty = true ∧
    filesOf ["a.vert".toList, "-h".toList] = ["a.vert".toList] ∧
    Out.usage ∈ stdout (main terminalWorld ["a.vert".toList, "-h".toList]).trace := by
  decide

/-- C16 (amended): at an interactive terminal, an argument list without filename
tokens makes the program print the usage text and exit with status 1 (without
`-h` the run is the context creation and the usage text only); with at least
one filename token and no `-h` token the usage text is not printed. -/
theorem usage_iff_no_filename (w : World) (args : List CStr) (htty : w.isatty = true) :
    (filesOf args = [] →
      Out.usage ∈ stdout (main w args).trace ∧ (main w args).outcome = .exit 1) ∧
    (filesOf args = [] → "-h".toList ∉ args →
      main w args = { trace := [.createContext, .print .usage], outcome := .exit 1 }) ∧
    (filesOf args ≠ [] → "-h".toList ∉ args → Out.usage ∉ stdout (main w args).trace) := by
  have key : filesOf args = [] → ARG_HELP ∉ args →
      main w args = { trace := [.createContext, .print .usage], outcome := .exit 1 } := by
    intro hno hh
    obtain ⟨cfg, hcfg⟩ := parsedConfig_of_no_help args hh
    have hl : fileLoop cfg w 0 0 args = { events := [], calls := 0, result := .done 0 } := by
      rw [fileLoop_filesOf, hno]
      rfl
    have := ((main_of_loop w args cfg hcfg).2.2 0 (by rw [hl])).1 htty hno
    rw [this, hl]
    rfl
  refine ⟨?_, key, ?_⟩
  · intro hno
    by_cases hh : ARG_HELP ∈ args
    · rw [main_help w args hh]
      exact ⟨by decide, rfl⟩
    · rw [key hno hh]
      exact ⟨by decide, rfl⟩
  · intro hsome hh
    obtain ⟨cfg, hcfg⟩ := parsedConfig_of_no_help args hh
    rw [mem_stdout_iff]
    obtain ⟨body, hb, ⟨ht, _⟩ | ⟨_, _, _, hno⟩ | ⟨ht, _⟩⟩ := main_structure w args cfg hcfg
    · rw [ht]
      intro hm
      rcases List.mem_cons.1 hm with h | h
      · cases h
      · have := hb _ h
        simp [fileEv] at this
    · exact absurd hno hsome
    · rw [ht]
      intro hm
      rcases List.mem_cons.1 hm with h | h
      · cases h
      · rcases List.mem_append.1 h with h | h
        · have := hb _ h
          simp [fileEv] at this
        · simp at h

/-- Witness of C16 (amended): `-q` alone prints the usage text and exits 1;
`a.vert -q` does not print it. -/
theorem usage_iff_no_filename_witness :
    main terminalWorld ["-q".toList] =
      { trace := [.createContext, .print .usage], outcome := .exit 1 } ∧
    Out.usage ∉ stdout (main terminalWorld ["a.vert".toList, "-q".toList]).trace :=
  ⟨(usage_iff_no_filename terminalWorld ["-q".toList] rfl).2.1 (by decide) (by decide),
    (usage_iff_no_filename terminalWorld ["a.vert".toList, "-q".toList] rfl).2.2
      (by decide) (by decide)⟩

/-- C18: when standard input is not a terminal and delivers no byte,
`processStdinInput` returns to `main` without any event (no compile call, no
output, no `exit`); `main` then releases the context and exits with the
`retValue` of the file loop, which is 0 when no FAILED line was printed (in
particular when there is no filename) and 1 otherwise. -/
theorem empty_stdin_returns_to_main (w : World) (args : List CStr) (cfg : Config)
    (rv : Int) (hin : w.stdin = []) :
    (∀ cfg1 k, processStdinInput cfg1 w k = ([], .returned)) ∧
    (w.isatty = false → parsedConfig args = some cfg →
      (fileLoop cfg w 0 0 args).result = .done rv →
      main w args =
        { trace := .createContext :: ((fileLoop cfg w 0 0 args).events ++ [.destroyContext]),
          outcome := .exit rv } ∧
      ((rv = 0 ∧ ∀ name, Ev.print (.failed name) ∉ (fileLoop cfg w 0 0 args).events) ∨
        (rv = 1 ∧ ∃ name, Ev.print (.failed name) ∈ (fileLoop cfg w 0 0 args).events)) ∧
      (filesOf args = [] → rv = 0 ∧ (fileLoop cfg w 0 0 args).events = [])) := by
  refine ⟨fun cfg1 k => processStdinInput_empty cfg1 w k hin, ?_⟩
  intro htty hcfg hr
  refine ⟨((main_of_loop w args cfg hcfg).2.2 rv hr).2.2.1 htty hin,
    fileLoop_retValue cfg w 0 0 rv args hr, ?_⟩
  intro hno
  have hl : fileLoop cfg w 0 0 args = { events := [], calls := 0, result := .done 0 } := by
    rw [fileLoop_filesOf, hno]
    rfl
  rw [hl] at hr
  simp only [LoopEnd.done.injEq] at hr
  exact ⟨hr.symm, by rw [hl]⟩

/-- Witness of C18: no argument and an empty pipe: the context is created and
released, the exit status is 0. -/
theorem empty_stdin_returns_to_main_witness :
    main emptyPipeWorld [] =
      { trace := [.createContext, .destroyContext], outcome := .exit 0 } :=
  ((empty_stdin_returns_to_main emptyPipeWorld [] Config.init 0 rfl).2 rfl (by decide)
    (by decide)).1

/-! ## Claims on the stdin path and the stage handed to the driver -/

theorem mem_compileCalls_iff (s : CStr) (t : Int) (tr : List Ev) :
    (s, t) ∈ compileCalls tr ↔ Ev.compile s t ∈ tr := by
  unfold compileCalls
  rw [List.mem_filterMap]
  constructor
  · rintro ⟨e, he, h⟩
    cases e <;> simp_all
  · intro h
    exact ⟨_, h, rfl⟩

theorem compileCalls_processStdinInput (cfg : Config) (w : World) (k : Nat)
    (hin : w.stdin ≠ []) :
    compileCalls (processStdinInput cfg w k).1 =
      [(cstrOf w.stdin, submittedType cfg GL_VERTEX_SHADER)] := by
  have e1 := fun o => compileCalls_LOG_DEBUG cfg o
  have e2 := fun o => compileCalls_LOG_INFO cfg o
  simp only [compileCalls] at e1 e2 ⊢
  by_cases hrej : (w.driver k (cstrOf w.stdin) (submittedType cfg GL_VERTEX_SHADER)).status =
      GL_FALSE
  · rw [processStdinInput_rejected cfg w k hin hrej]
    simp [List.filterMap_append, e1]
  · rw [processStdinInput_accepted cfg w k hin hrej]
    simp [List.filterMap_append, e1, e2]

/-- C13: on a non-empty input `processStdinInput` makes exactly one compile call,
on the input read as a C string (the input itself when it holds no zero byte),
with the override as stage when one is set and vertex otherwise; it then
releases the context and ends the process with status 1 when the driver
rejects the source and 0 when it accepts it.  In a run of `main` that reaches
the stdin path this call comes after those of the files, with the same stage
whatever the filenames are. -/
theorem stdin_compiled_once_with_override_or_vertex (cfg : Config) (w : World) (k : Nat)
    (args : List CStr) (hin : w.stdin ≠ []) :
    compileCalls (processStdinInput cfg w k).1 =
      [(cstrOf w.stdin,
        if cfg.typeOverride ≠ -1 then cfg.typeOverride else GL_VERTEX_SHADER)] ∧
    (NUL ∉ w.stdin → cstrOf w.stdin = w.stdin) ∧
    (processStdinInput cfg w k).2 =
      .exited (if (w.driver k (cstrOf w.stdin)
          (if cfg.typeOverride ≠ -1 then cfg.typeOverride else GL_VERTEX_SHADER)).status =
            GL_FALSE then 1 else 0) ∧
    [Ev.destroyContext] <:+ (processStdinInput cfg w k).1 ∧
    (w.isatty = false → parsedConfig args = some cfg →
      ∀ rv, (fileLoop cfg w 0 0 args).result = .done rv →
        compileCalls (main w args).trace =
          compileCalls (fileLoop cfg w 0 0 args).events ++
            [(cstrOf w.stdin,
              if cfg.typeOverride ≠ -1 then cfg.typeOverride else GL_VERTEX_SHADER)]) := by
  have hst : submittedType cfg GL_VERTEX_SHADER =
      (if cfg.typeOverride ≠ -1 then cfg.typeOverride else GL_VERTEX_SHADER) := rfl
  rw [← hst]
  refine ⟨compileCalls_processStdinInput cfg w k hin, cstrOf_eq_self w.stdin, ?_, ?_, ?_⟩
  · by_cases hrej : (w.driver k (cstrOf w.stdin) (submittedType cfg GL_VERTEX_SHADER)).status =
        GL_FALSE
    · rw [processStdinInput_rejected cfg w k hin hrej, if_pos hrej]
    · rw [processStdinInput_accepted cfg w k hin hrej, if_neg hrej]
  · obtain ⟨body, code, _, _, hs⟩ := processStdinInput_structure cfg w k hin
    rw [hs]
    exact ⟨body, rfl⟩
  · intro htty hcfg rv hr
    obtain ⟨body, code, _, _, hs⟩ :=
      processStdinInput_structure cfg w (fileLoop cfg w 0 0 args).calls hin
    have hm := ((main_of_loop w args cfg hcfg).2.2 rv hr).2.2.2 htty hin _ code hs
    have hc := compileCalls_processStdinInput cfg w (fileLoop cfg w 0 0 args).calls hin
    rw [hs] at hc
    rw [hm]
    have : compileCalls (Ev.createContext ::
        ((fileLoop cfg w 0 0 args).events ++ (body ++ [Ev.destroyContext]))) =
        compileCalls ((fileLoop cfg w 0 0 args).events ++ (body ++ [Ev.destroyContext])) := by
      simp [compileCalls]
    rw [this, compileCalls_append, hc]

/-- Witness of C13: the piped source is compiled once as a vertex shader, also
when the only filename is `b.frag`. -/
theorem stdin_compiled_once_with_override_or_vertex_witness :
    compileCalls (processStdinInput Config.init pipedWorld 0).1 =
      [("void main(){}".toList, GL_VERTEX_SHADER)] ∧
    compileCalls (main pipedWorld ["b.frag".toList]).trace =
      [("void main({}".toList, GL_FRAGMENT_SHADER), ("void main(){}".toList, GL_VERTEX_SHADER)] := by
  have h := stdin_compiled_once_with_override_or_vertex Config.init pipedWorld 0
    ["b.frag".toList] (by decide)
  refine ⟨?_, ?_⟩
  · rw [h.1]
    decide
  · rw [h.2.2.2.2 rfl (by decide) 1 (by decide)]
    decide

theorem processFlag_validOverride (cfg cfg1 : Config) (arg : CStr) (code : Int)
    (hv : validOverride cfg) (h : processFlag cfg arg = .ret code cfg1) :
    validOverride cfg1 := by
  rw [processFlag_eq] at h
  split_ifs at h <;> simp only [FlagResult.ret.injEq] at h <;> obtain ⟨_, rfl⟩ := h
  · exact hv
  · exact hv
  · exact Or.inr (Or.inl rfl)
  · exact Or.inr (Or.inr rfl)
  · exact hv
  · exact hv

theorem applyFlags_validOverride (cfg cfg1 : Config) (l : List CStr)
    (hv : validOverride cfg) (h : applyFlags cfg l = some cfg1) : validOverride cfg1 := by
  induction l generalizing cfg with
  | nil =>
    simp only [applyFlags, Option.some.injEq] at h
    exact h ▸ hv
  | cons a rest ih =>
    simp only [applyFlags] at h
    cases hp : processFlag cfg a with
    | ret code c =>
      rw [hp] at h
      exact ih c (processFlag_validOverride cfg c a code hv hp) h
    | exit out code =>
      rw [hp] at h
      cases h

theorem getType_range (cfg : Config) (f : CStr) (hv : validOverride cfg) :
    getType cfg f = GL_VERTEX_SHADER ∨ getType cfg f = GL_FRAGMENT_SHADER ∨
      getType cfg f = -1 := by
  rw [getType_eq]
  unfold typeOfSuffix
  split_ifs with h1 h2 h3
  · exact Or.inl rfl
  · exact Or.inr (Or.inl rfl)
  · rcases hv with h | h | h
    · exact absurd h h3
    · exact Or.inl h
    · exact Or.inr (Or.inl h)
  · exact Or.inr (Or.inr rfl)

/-- C19: every stage handed to the driver in a run of `main` is vertex or
fragment, never `-1`.  The override is unset initially and every `processFlag`
keeps it in {unset, vertex, fragment}; with such an override `getType` returns
vertex, fragment or `-1`; `processFile` makes no compile call when the resolved
type is `-1`; and the stdin path uses the override or vertex. -/
theorem driver_stage_vertex_or_fragment (w : World) (args : List CStr) :
    validOverride Config.init ∧
    (∀ cfg cfg1 arg code, validOverride cfg → processFlag cfg arg = .ret code cfg1 →
      validOverride cfg1) ∧
    (∀ cfg f, validOverride cfg →
      getType cfg f = GL_VERTEX_SHADER ∨ getType cfg f = GL_FRAGMENT_SHADER ∨
        getType cfg f = -1) ∧
    (∀ cfg k f, getType cfg f = -1 → compileCalls (processFile cfg w k f).events = []) ∧
    (∀ cfg k, validOverride cfg → ∀ s t, (s, t) ∈ compileCalls (processStdinInput cfg w k).1 →
      t = GL_VERTEX_SHADER ∨ t = GL_FRAGMENT_SHADER) ∧
    (∀ s t, (s, t) ∈ compileCalls (main w args).trace →
      t = GL_VERTEX_SHADER ∨ t = GL_FRAGMENT_SHADER) := by
  have hfe : ∀ cfg : Config, validOverride cfg → ∀ s t, fileEv cfg (.compile s t) →
      t = GL_VERTEX_SHADER ∨ t = GL_FRAGMENT_SHADER := by
    intro cfg hv s t h
    rcases h with h | h | ⟨hne, h⟩
    · exact Or.inl h
    · exact Or.inr h
    · rcases hv with h1 | h1 | h1
      · exact absurd h1 hne
      · exact Or.inl (h.trans h1)
      · exact Or.inr (h.trans h1)
  refine ⟨Or.inl rfl, fun cfg cfg1 arg code hv h => processFlag_validOverride cfg cfg1 arg code hv h,
    fun cfg f hv => getType_range cfg f hv, ?_, ?_, ?_⟩
  · intro cfg k f ht
    rcases processFile_cases cfg w k f with ⟨_, _, he⟩ | ⟨_, _, he⟩ | ⟨h, _⟩ | ⟨h, _⟩ |
      ⟨h, _⟩ | ⟨h, _⟩
    · rw [he]; exact compileCalls_LOG_DEBUG cfg _
    · rw [he, compileCalls_append, compileCalls_LOG_DEBUG]; rfl
    · exact absurd ht h
    · exact absurd ht h
    · exact absurd ht h
    · exact absurd ht h
  · intro cfg k hv s t hm
    by_cases hin : w.stdin = []
    · rw [processStdinInput_empty cfg w k hin] at hm
      simp [compileCalls] at hm
    · obtain ⟨body, code, hb, _, hs⟩ := processStdinInput_structure cfg w k hin
      rw [mem_compileCalls_iff, hs] at hm
      rcases List.mem_append.1 hm with h | h
      · exact hfe cfg hv s t (hb _ h)
      · simp at h
  · intro s t hm
    rw [mem_compileCalls_iff] at hm
    by_cases hh : ARG_HELP ∈ args
    · rw [main_help w args hh] at hm
      simp at hm
    · obtain ⟨cfg, hcfg⟩ := parsedConfig_of_no_help args hh
      have hv : validOverride cfg := by
        rw [parsedConfig_eq] at hcfg
        exact applyFlags_validOverride Config.init cfg _ (Or.inl rfl) hcfg
      obtain ⟨body, hb, ⟨ht, _⟩ | ⟨ht, _⟩ | ⟨ht, _⟩⟩ := main_structure w args cfg hcfg
      · rw [ht] at hm
        rcases List.mem_cons.1 hm with h | h
        · cases h
        · exact hfe cfg hv s t (hb _ h)
      · rw [ht] at hm
        rcases List.mem_cons.1 hm with h | h
        · cases h
        · rcases List.mem_append.1 h with h | h
          · exact hfe cfg hv s t (hb _ h)
          · simp at h
      · rw [ht] at hm
        rcases List.mem_cons.1 hm with h | h
        · cases h
        · rcases List.mem_append.1 h with h | h
          · exact hfe cfg hv s t (hb _ h)
          · simp at h

/-- Witness of C19: `-frag a.vert` hands the driver the stage fragment. -/
theorem driver_stage_vertex_or_fragment_witness :
    validOverride ⟨.LT_DEFAULT, GL_FRAGMENT_SHADER, false⟩ ∧
    (GL_FRAGMENT_SHADER = GL_VERTEX_SHADER ∨ GL_FRAGMENT_SHADER = GL_FRAGMENT_SHADER) :=
  ⟨(driver_stage_vertex_or_fragment terminalWorld ["-frag".toList, "a.vert".toList]).2.1
      Config.init _ "-frag".toList 0 (Or.inl rfl) (by decide),
    (driver_stage_vertex_or_fragment terminalWorld ["-frag".toList, "a.vert".toList]).2.2.2.2.2
      "void main(){}".toList GL_FRAGMENT_SHADER (by decide)⟩

/-! ## Claims on the context and on the order of files and stdin -/

/-- C14 (counterexample): with `-h` the process exits before the context is
acquired, so it is acquired zero times; and with no argument at a terminal the
context is acquired, the usage text is printed and `main` returns 1 without
releasing it. -/
theorem context_not_acquired_or_not_released :
    Ev.createContext ∉ (main terminalWorld ["-h".toList]).trace ∧
    main terminalWorld [] =
      { trace := [.createContext, .print .usage], outcome := .exit 1 } ∧
    Ev.destroyContext ∉ (main terminalWorld []).trace := by
  decide

/-- C14 (amended): with `-h` among the arguments the process exits during the
parsing pass and the context is neither acquired nor released.  On every other
path the context is acquired exactly once, as the first action, before any file
or stdin processing, and it is never released before the last action; on the
paths that end in the fatal-error return from `processFile`, in an exit of the
stdin path or in the final return of `main`, the release is the last action and
the only release. -/
theorem context_lifecycle (w : World) (args : List CStr) :
    ("-h".toList ∈ args →
      Ev.createContext ∉ (main w args).trace ∧ Ev.destroyContext ∉ (main w args).trace) ∧
    ("-h".toList ∉ args →
      ∃ mid, Ev.createContext ∉ mid ∧ Ev.destroyContext ∉ mid ∧
        ((main w args).trace = .createContext :: mid ∨
          (main w args).trace = .createContext :: (mid ++ [.destroyContext])) ∧
        ((main w args).outcome ≠ .abort → ¬ (w.isatty = true ∧ filesOf args = []) →
          (main w args).trace = .createContext :: (mid ++ [.destroyContext]))) := by
  constructor
  · intro hh
    rw [main_help w args hh]
    exact ⟨by decide, by decide⟩
  · intro hh
    obtain ⟨cfg, hcfg⟩ := parsedConfig_of_no_help args hh
    have hnc : ∀ body : List Ev, (∀ e ∈ body, fileEv cfg e) →
        Ev.createContext ∉ body ∧ Ev.destroyContext ∉ body := by
      intro body hb
      exact ⟨fun hm => hb _ hm, fun hm => hb _ hm⟩
    obtain ⟨body, hb, ⟨ht, ho⟩ | ⟨ht, _, htty, hno⟩ | ⟨ht, _⟩⟩ := main_structure w args cfg hcfg
    · exact ⟨body, (hnc body hb).1, (hnc body hb).2, Or.inl ht, fun hne _ => absurd ho hne⟩
    · refine ⟨body ++ [.print .usage], ?_, ?_, Or.inl ht, fun _ hn => absurd ⟨htty, hno⟩ hn⟩
      · intro hm
        rcases List.mem_append.1 hm with h | h
        · exact (hnc body hb).1 h
        · simp at h
      · intro hm
        rcases List.mem_append.1 hm with h | h
        · exact (hnc body hb).2 h
        · simp at h
    · exact ⟨body, (hnc body hb).1, (hnc body hb).2, Or.inr ht, fun _ _ => ht⟩

/-- Witness of C14 (amended): `shader.glsl` at a terminal ends in the fatal-error
return, with the release as last action; `-h` creates no context. -/
theorem context_lifecycle_witness :
    Ev.createContext ∉ (main terminalWorld ["-h".toList]).trace ∧
    ∃ mid, Ev.createContext ∉ mid ∧ Ev.destroyContext ∉ mid ∧
      ((main terminalWorld ["shader.glsl".toList]).trace = .createContext :: mid ∨
        (main terminalWorld ["shader.glsl".toList]).trace =
          .createContext :: (mid ++ [.destroyContext])) ∧
      ((main terminalWorld ["shader.glsl".toList]).outcome ≠ .abort →
        ¬ (terminalWorld.isatty = true ∧ filesOf ["shader.glsl".toList] = []) →
        (main terminalWorld ["shader.glsl".toList]).trace =
          .createContext :: (mid ++ [.destroyContext])) :=
  ⟨((context_lifecycle terminalWorld ["-h".toList]).1 (by decide)).1,
    (context_lifecycle terminalWorld ["shader.glsl".toList]).2 (by decide)⟩

/-- C12 (counterexample): with a shader piped into standard input, the file
`a.vert` named on the command line is opened, compiled and reported before the
stdin source; and the unresolved name `shader.glsl` ends the run with status 1
before the stdin source, which the driver would accept, is compiled. -/
theorem files_processed_before_stdin :
    main pipedWorld ["a.vert".toList] =
      { trace := [.createContext, .fopen "a.vert".toList,
          .compile "void main(){}".toList GL_VERTEX_SHADER, .print (.passed "a.vert".toList),
          .compile "void main(){}".toList GL_VERTEX_SHADER, .print (.passed "stdin".toList),
          .destroyContext],
        outcome := .exit 0 } ∧
    main pipedWorld ["shader.glsl".toList] =
      { trace := [.createContext, .print (.typeError "shader.glsl".toList), .destroyContext],
        outcome := .exit 1 } := by
  decide

/-- C12 (amended): when standard input is not a terminal and not empty, `main`
first runs its loop over the files named on the command line, as in every run;
when the loop ends in an unrecoverable file error the run ends there with
status 1 and the stdin source is not compiled.  When the loop runs to its end,
the stdin source is then compiled once and reported, and the exit status is 1
when the driver rejects it, and 0 when the driver accepts it and no file failed
to compile. -/
theorem stdin_path_runs_after_file_loop (w : World) (args : List CStr) (cfg : Config)
    (hcfg : parsedConfig args = some cfg) (htty : w.isatty = false) (hin : w.stdin ≠ []) :
    ((fileLoop cfg w 0 0 args).result = .ret 1 →
      main w args = { trace := .createContext :: (fileLoop cfg w 0 0 args).events,
                      outcome := .exit 1 }) ∧
    (∀ rv, (fileLoop cfg w 0 0 args).result = .done rv →
      (main w args).trace = .createContext :: ((fileLoop cfg w 0 0 args).events ++
        (processStdinInput cfg w (fileLoop cfg w 0 0 args).calls).1) ∧
      compileCalls (processStdinInput cfg w (fileLoop cfg w 0 0 args).calls).1 =
        [(cstrOf w.stdin, submittedType cfg GL_VERTEX_SHADER)] ∧
      ((w.driver (fileLoop cfg w 0 0 args).calls (cstrOf w.stdin)
          (submittedType cfg GL_VERTEX_SHADER)).status = GL_FALSE →
        (main w args).outcome = .exit 1) ∧
      ((w.driver (fileLoop cfg w 0 0 args).calls (cstrOf w.stdin)
          (submittedType cfg GL_VERTEX_SHADER)).status ≠ GL_FALSE → rv = 0 →
        (main w args).outcome = .exit 0)) := by
  obtain ⟨_, m2, m3⟩ := main_of_loop w args cfg hcfg
  refine ⟨fun h => m2 1 h, ?_⟩
  intro rv hr
  have key := ((m3 rv hr).2.2.2) htty hin
  refine ⟨?_, compileCalls_processStdinInput cfg w _ hin, ?_, ?_⟩
  · obtain ⟨body, code, _, _, hs⟩ :=
      processStdinInput_structure cfg w (fileLoop cfg w 0 0 args).calls hin
    rw [key _ code hs, hs]
  · intro hrej
    have hs := processStdinInput_rejected cfg w (fileLoop cfg w 0 0 args).calls hin hrej
    rw [key _ 1 hs]
  · intro hacc _
    have hs := processStdinInput_accepted cfg w (fileLoop cfg w 0 0 args).calls hin hacc
    rw [key _ 0 hs]

/-- Witness of C12 (amended): `a.vert` with a shader piped into standard input. -/
theorem stdin_path_runs_after_file_loop_witness :
    (main pipedWorld ["a.vert".toList]).outcome = .exit 0 ∧
    (main pipedWorld ["a.vert".toList]).trace =
      .createContext :: ((fileLoop Config.init pipedWorld 0 0 ["a.vert".toList]).events ++
        (processStdinInput Config.init pipedWorld
          (fileLoop Config.init pipedWorld 0 0 ["a.vert".toList]).calls).1) :=
  ⟨((stdin_path_runs_after_file_loop pipedWorld ["a.vert".toList] Config.init (by decide) rfl
      (by decide)).2 0 (by decide)).2.2.2 (by decide) rfl,
    ((stdin_path_runs_after_file_loop pipedWorld ["a.vert".toList] Config.init (by decide) rfl
      (by decide)).2 0 (by decide)).1⟩

end Glslcl
